import Mathlib

/-!
Verification development for the offline-first synchronization engine of the
KeepNotesClone repository.  The definitions below are a shallow embedding of
the SyncService class (src/services/syncService.ts) together with the part of
DatabaseService it drives (src/services/databaseService.ts, saveNote), on the
data model of src/types/index.ts.

Modelling conventions:
* JavaScript Date values are modelled as epoch milliseconds (a natural
  number); comparisons between Date objects in the source compare exactly
  these numbers.
* AsyncStorage is a string-keyed store of typed values; JSON encoding and
  decoding of entity collections is the identity on the typed value, except
  for the pending-operation timestamps, whose Date to ISO-8601 string round
  trip is modelled explicitly as the base-10 digit expansion of the epoch
  milliseconds (an injective textual encoding with an explicit inverse, the
  property the parse step needs).
* The remote store boundary (DatabaseService calls awaited by SyncService)
  is supplied by an environment: each awaited call either resolves to a
  truthy value, resolves to a falsy value (null, false, empty list), or
  rejects.  SyncService handles all three in its own catch blocks, which is
  what the claims below are about.
* Search indexing (pineconeService) and logging are outside the remote store
  boundary of the specification and are modelled as no-ops; every call to
  them in the source is wrapped in its own catch.
-/

namespace KeepNotes

/-- Epoch milliseconds, the number wrapped by a JavaScript Date. -/
abbrev Millis := Nat

/-- Note record, translated from src/types/index.ts. -/
structure Note where
  id : String
  title : String
  content : String
  color : String
  isPinned : Bool
  labels : List String
  images : List String
  audioUri : Option String := none
  audioTranscription : Option String := none
  backgroundColor : Option String := none
  createdAt : Millis
  updatedAt : Millis
deriving Repr, DecidableEq

/-- Chat message record, translated from src/types/index.ts. -/
structure ChatMessage where
  id : String
  text : String
  isUser : Bool
  timestamp : Millis
deriving Repr, DecidableEq

/-- Chat thread record, translated from src/types/index.ts. -/
structure ChatThread where
  id : String
  title : String
  messages : List ChatMessage
  createdAt : Millis
  updatedAt : Millis
deriving Repr, DecidableEq

/-- Label record, translated from src/types/index.ts. -/
structure Label where
  id : String
  name : String
  color : Option String := none
deriving Repr, DecidableEq

/-- Authenticated user as AuthService.getCurrentUser returns it
(src/services/authService.ts); a null user is Option.none.  Guest mode is
exactly the absence of a current user: the service substitutes the literal
string guest for the missing id when building storage keys. -/
structure AuthUser where
  id : String
  email : String
  name : String
deriving Repr, DecidableEq

/-! Association-list model of a JavaScript Map with string keys (and of the
AsyncStorage key space).  Map.set replaces the binding in place when the key
is present and appends otherwise; with the unique-key invariant that Map
maintains, replacing the first binding is exactly that. -/

/-- Map.set: replace the first binding of the key, or append a new one. -/
def mapSet (m : List (String × α)) (k : String) (v : α) : List (String × α) :=
  match m with
  | [] => [(k, v)]
  | p :: t => if p.1 = k then (k, v) :: t else p :: mapSet t k v

/-- Map.get: the value of the first binding of the key. -/
def mapGet (m : List (String × α)) (k : String) : Option α :=
  match m with
  | [] => none
  | p :: t => if p.1 = k then some p.2 else mapGet t k

/-- Keys of the association list, in order. -/
def mapKeys (m : List (String × α)) : List String := m.map (fun p => p.1)

/-- Values of the association list, in order (Array.from of Map.values). -/
def mapValues (m : List (String × α)) : List α := m.map (fun p => p.2)

/-- Seeding loop shared by the merge functions: fold a list of entities into
a map keyed by a designated key function. -/
def seedMap (key : α → String) (xs : List α) (m : List (String × α)) :
    List (String × α) :=
  xs.foldl (fun acc x => mapSet acc (key x) x) m

/-- Insertion step of the comparison sort standing in for Array.sort. -/
def insertSorted (le : α → α → Bool) (a : α) : List α → List α
  | [] => [a]
  | b :: t => if le a b then a :: b :: t else b :: insertSorted le a t

/-- Comparison sort standing in for JavaScript Array.prototype.sort; only
the multiset of elements matters to the properties proved below. -/
def sortBy (le : α → α → Bool) : List α → List α
  | [] => []
  | a :: t => insertSorted le a (sortBy le t)

/-- First entity with the given id, the reference lookup the merge theorems
are phrased with. -/
def findByKey (key : α → String) (i : String) : List α → Option α
  | [] => none
  | x :: t => if key x = i then some x else findByKey key i t

/-! Merge functions, translated from SyncService.mergeNotes,
SyncService.mergeChatThreads and SyncService.mergeLabels. -/

/-- One iteration of the cloud loop inside SyncService.mergeNotes.  The
accumulator carries the id-keyed note map and the list of local notes the
loop hands to addPendingOperation, in iteration order. -/
def mergeNoteStep (acc : List (String × Note) × List Note) (cloudNote : Note) :
    List (String × Note) × List Note :=
  match mapGet acc.1 cloudNote.id with
  | none => (mapSet acc.1 cloudNote.id cloudNote, acc.2)
  | some localNote =>
    if cloudNote.updatedAt > localNote.updatedAt then
      (mapSet acc.1 cloudNote.id cloudNote, acc.2)
    else if localNote.updatedAt > cloudNote.updatedAt then
      (acc.1, acc.2 ++ [localNote])
    else
      (acc.1, acc.2)

/-- Computational core of SyncService.mergeNotes: seed the map with the local
notes, fold the cloud notes, return the merged collection sorted by
updatedAt descending together with the local winners the loop enqueued. -/
def mergeNotes (localNotes cloudNotes : List Note) : List Note × List Note :=
  let folded := cloudNotes.foldl mergeNoteStep (seedMap (fun n => n.id) localNotes [], [])
  (sortBy (fun a b => b.updatedAt ≤ a.updatedAt) (mapValues folded.1), folded.2)

/-- One iteration of the cloud loop inside SyncService.mergeChatThreads. -/
def mergeThreadStep (m : List (String × ChatThread)) (cloudThread : ChatThread) :
    List (String × ChatThread) :=
  match mapGet m cloudThread.id with
  | none => mapSet m cloudThread.id cloudThread
  | some localThread =>
    if cloudThread.updatedAt > localThread.updatedAt then
      mapSet m cloudThread.id cloudThread
    else m

/-- SyncService.mergeChatThreads: last-write-wins on the map, no winners
collected, result sorted by updatedAt descending. -/
def mergeChatThreads (localThreads cloudThreads : List ChatThread) : List ChatThread :=
  let m := cloudThreads.foldl mergeThreadStep (seedMap (fun t => t.id) localThreads [])
  sortBy (fun a b => b.updatedAt ≤ a.updatedAt) (mapValues m)

/-- SyncService.mergeLabels: every cloud label is written over the local one
with the same id, with no timestamp comparison; result sorted by name
ascending. -/
def mergeLabels (localLabels cloudLabels : List Label) : List Label :=
  let m := seedMap (fun l => l.id) cloudLabels (seedMap (fun l => l.id) localLabels [])
  sortBy (fun a b => a.name ≤ b.name) (mapValues m)

/-! Pending operations (the PendingOperation interface of syncService.ts)
and the drain loop of SyncService.processPendingOperations. -/

/-- Operation kind of a pending operation. -/
inductive OpType
  | create
  | update
  | delete
deriving Repr, DecidableEq

/-- Collection a pending operation belongs to. -/
inductive Collection
  | notes
  | chatThreads
  | labels
deriving Repr, DecidableEq

/-- Payload carried by a pending operation: a full entity for create and
update, a bare id object for delete. -/
inductive Payload
  | note (n : Note)
  | thread (t : ChatThread)
  | label (l : Label)
  | idOnly (id : String)
deriving Repr, DecidableEq

/-- The id field JavaScript reads off the payload (data.id). -/
def Payload.entityId : Payload → String
  | .note n => n.id
  | .thread t => t.id
  | .label l => l.id
  | .idOnly i => i

/-- Pending operation record, translated from the PendingOperation interface
in syncService.ts.  Its id is data.id when that is truthy. -/
structure PendingOperation where
  id : String
  type : OpType
  collection : Collection
  data : Payload
  timestamp : Millis
  retryCount : Nat
deriving Repr, DecidableEq

/-- Name interpolated for an OpType in a template string. -/
def opTypeName : OpType → String
  | .create => "create"
  | .update => "update"
  | .delete => "delete"

/-- Retry ceiling, the MAX_RETRY_COUNT field of SyncService. -/
def MAX_RETRY_COUNT : Nat := 3

/-- Remote-store calls SyncService awaits on DatabaseService. -/
inductive RemoteCall
  | getNotes (userId : String)
  | getChatThreads (userId : String)
  | getLabels (userId : String)
  | createNote (p : Payload)
  | updateNote (id : String) (p : Payload)
  | deleteNote (id : String)
  | createChatThread (p : Payload)
  | updateChatThread (id : String) (p : Payload)
  | deleteChatThread (id : String)
  | createLabel (p : Payload)
  | deleteLabel (id : String)
deriving Repr, DecidableEq

/-- Outcome of one awaited remote write as SyncService observes it: the call
resolves to a truthy or falsy value, or the promise rejects. -/
inductive RemoteResult
  | ok (truthy : Bool)
  | thrown
deriving Repr, DecidableEq

/-- Dispatch of one pending operation to the DatabaseService call the drain
loop makes for it (processPendingNoteOperation,
processPendingChatThreadOperation, processPendingLabelOperation); the
environment supplies the outcome of the awaited call, and the list records
the calls issued.  A label update falls through to the default branch of
processPendingLabelOperation and returns false without any remote call. -/
def attemptOp (call : RemoteCall → RemoteResult) (op : PendingOperation) :
    RemoteResult × List RemoteCall :=
  match op.collection, op.type with
  | .notes, .create => (call (.createNote op.data), [.createNote op.data])
  | .notes, .update =>
    (call (.updateNote op.data.entityId op.data), [.updateNote op.data.entityId op.data])
  | .notes, .delete => (call (.deleteNote op.data.entityId), [.deleteNote op.data.entityId])
  | .chatThreads, .create => (call (.createChatThread op.data), [.createChatThread op.data])
  | .chatThreads, .update =>
    (call (.updateChatThread op.data.entityId op.data),
     [.updateChatThread op.data.entityId op.data])
  | .chatThreads, .delete =>
    (call (.deleteChatThread op.data.entityId), [.deleteChatThread op.data.entityId])
  | .labels, .create => (call (.createLabel op.data), [.createLabel op.data])
  | .labels, .update => (.ok false, [])
  | .labels, .delete => (call (.deleteLabel op.data.entityId), [.deleteLabel op.data.entityId])

/-- Result of the iteration loop of SyncService.processPendingOperations,
before the final filter: the operations with retryCount bumped in place on
failure, the ids pushed onto successfulOperations (replay succeeded, or
retry ceiling reached), the ids reported as dropped at the ceiling, and the
remote calls issued, in order. -/
structure DrainPass where
  processed : List PendingOperation
  successIds : List String
  droppedIds : List String
  calls : List RemoteCall
deriving Repr, DecidableEq

/-- Iteration loop of SyncService.processPendingOperations: replay succeeds
and the id is collected for removal; replay returns false and retryCount is
bumped, with the id collected (and reported dropped) exactly when the bumped
count reaches MAX_RETRY_COUNT; replay rejects and the catch block only bumps
retryCount, collecting nothing. -/
def drainLoop (call : RemoteCall → RemoteResult) :
    List PendingOperation → DrainPass
  | [] => ⟨[], [], [], []⟩
  | op :: rest =>
    let a := attemptOp call op
    let r := drainLoop call rest
    match a.1 with
    | .ok true => ⟨op :: r.processed, op.id :: r.successIds, r.droppedIds, a.2 ++ r.calls⟩
    | .ok false =>
      let bumped : PendingOperation := { op with retryCount := op.retryCount + 1 }
      if MAX_RETRY_COUNT ≤ bumped.retryCount then
        ⟨bumped :: r.processed, op.id :: r.successIds, op.id :: r.droppedIds, a.2 ++ r.calls⟩
      else
        ⟨bumped :: r.processed, r.successIds, r.droppedIds, a.2 ++ r.calls⟩
    | .thrown =>
      ⟨{ op with retryCount := op.retryCount + 1 } :: r.processed,
       r.successIds, r.droppedIds, a.2 ++ r.calls⟩

/-- Result of a whole drain: the queue that replaces pendingOperations, plus
the pass data. -/
structure DrainResult where
  queue : List PendingOperation
  successIds : List String
  droppedIds : List String
  calls : List RemoteCall
deriving Repr, DecidableEq

/-- SyncService.processPendingOperations at the queue level: early return on
an empty queue or a missing user, otherwise run the loop and filter out
every operation whose id appears in successfulOperations. -/
def processPendingOperations (call : RemoteCall → RemoteResult)
    (user : Option AuthUser) (ops : List PendingOperation) : DrainResult :=
  if ops.isEmpty then ⟨ops, [], [], []⟩
  else
    match user with
    | none => ⟨ops, [], [], []⟩
    | some _ =>
      let pass := drainLoop call ops
      ⟨pass.processed.filter (fun o => decide (o.id ∉ pass.successIds)),
       pass.successIds, pass.droppedIds, pass.calls⟩

/-! Persistence of the pending-operation queue
(SyncService.savePendingOperations and SyncService.loadPendingOperations). -/

/-- Serialized form of a pending operation as JSON.stringify writes it to
AsyncStorage: the timestamp Date becomes its ISO-8601 string, modelled as
the base-10 digit expansion of the epoch milliseconds; the entity payload
keeps its JSON value unchanged. -/
structure StoredOp where
  id : String
  type : OpType
  collection : Collection
  data : Payload
  timestamp : List Nat
  retryCount : Nat
deriving Repr, DecidableEq

/-- JSON.stringify of one pending operation. -/
def serializeOp (op : PendingOperation) : StoredOp :=
  ⟨op.id, op.type, op.collection, op.data, Nat.digits 10 op.timestamp, op.retryCount⟩

/-- Revival performed by loadPendingOperations: spread the parsed object and
rebuild the timestamp with new Date(op.timestamp). -/
def deserializeOp (s : StoredOp) : PendingOperation :=
  ⟨s.id, s.type, s.collection, s.data, Nat.ofDigits 10 s.timestamp, s.retryCount⟩

/-- Serialization of the whole queue (SyncService.savePendingOperations). -/
def serializeQueue (ops : List PendingOperation) : List StoredOp :=
  ops.map serializeOp

/-- Parse of the whole queue (SyncService.loadPendingOperations). -/
def parseQueue (stored : List StoredOp) : List PendingOperation :=
  stored.map deserializeOp

/-! Service state and AsyncStorage model. -/

/-- Typed values held by AsyncStorage under the key space of the service:
notes_{userId}, chatThreads_{userId}, labels_{userId}, pendingOperations and
lastSyncTime. -/
inductive StoreVal
  | notesV (ns : List Note)
  | threadsV (ts : List ChatThread)
  | labelsV (ls : List Label)
  | opsV (ops : List StoredOp)
  | timeV (t : List Nat)
deriving Repr, DecidableEq

/-- Mutable fields of the SyncService singleton (the syncStatus record and
pendingOperations) together with the AsyncStorage contents. -/
structure St where
  isSyncing : Bool
  isOnline : Bool
  lastSyncTime : Option Millis
  pendingOperations : List PendingOperation
  pendingChanges : Nat
  store : List (String × StoreVal)
deriving Repr, DecidableEq

/-- Observable side effects of a service call, in order: awaited remote
calls and AsyncStorage writes. -/
inductive Effect
  | remote (c : RemoteCall)
  | storeWrite (key : String)
deriving Repr, DecidableEq

/-- Outcome of the awaited this.updateNote call inside
DatabaseService.saveNote, as that method distinguishes them: a truthy note,
a falsy result, a rejection with code PGRST116 (row not found), a rejection
with code 42501 (row-level security), or any other rejection. -/
inductive UpdateOutcome
  | okNote
  | nullNote
  | errNotFound
  | errRLS
  | errOther
deriving Repr, DecidableEq

/-- Outcome of the awaited this.createNote call inside
DatabaseService.saveNote. -/
inductive CreateOutcome
  | okNote
  | nullNote
  | errAny
deriving Repr, DecidableEq

/-- Environment of one service call: the current user AuthService reports,
the clock, and the outcomes of every remote call that could be awaited. -/
structure SyncEnv where
  user : Option AuthUser
  now : Millis
  remoteNotes : Except Unit (List Note)
  remoteThreads : Except Unit (List ChatThread)
  remoteLabels : Except Unit (List Label)
  call : RemoteCall → RemoteResult
  updateNoteOutcome : UpdateOutcome
  createNoteOutcome : CreateOutcome

/-- The userId used for storage keys: the current user id, or the literal
guest when no user is authenticated. -/
def SyncEnv.userId (env : SyncEnv) : String :=
  match env.user with
  | some u => u.id
  | none => "guest"

/-- SyncService.getLocalNotes: read and parse notes_{userId}; a missing key
or a parse failure yields the empty list through the catch block. -/
def getLocalNotes (st : St) (userId : String) : List Note :=
  match mapGet st.store ("notes_" ++ userId) with
  | some (.notesV ns) => ns
  | _ => []

/-- SyncService.saveLocalNotes: write the collection under notes_{userId}. -/
def saveLocalNotes (st : St) (userId : String) (ns : List Note) : St × List Effect :=
  ({ st with store := mapSet st.store ("notes_" ++ userId) (.notesV ns) },
   [.storeWrite ("notes_" ++ userId)])

/-- SyncService.getLocalChatThreads. -/
def getLocalChatThreads (st : St) (userId : String) : List ChatThread :=
  match mapGet st.store ("chatThreads_" ++ userId) with
  | some (.threadsV ts) => ts
  | _ => []

/-- SyncService.saveLocalChatThreads. -/
def saveLocalChatThreads (st : St) (userId : String) (ts : List ChatThread) :
    St × List Effect :=
  ({ st with store := mapSet st.store ("chatThreads_" ++ userId) (.threadsV ts) },
   [.storeWrite ("chatThreads_" ++ userId)])

/-- SyncService.getLocalLabels. -/
def getLocalLabels (st : St) (userId : String) : List Label :=
  match mapGet st.store ("labels_" ++ userId) with
  | some (.labelsV ls) => ls
  | _ => []

/-- SyncService.saveLocalLabels. -/
def saveLocalLabels (st : St) (userId : String) (ls : List Label) : St × List Effect :=
  ({ st with store := mapSet st.store ("labels_" ++ userId) (.labelsV ls) },
   [.storeWrite ("labels_" ++ userId)])

/-- Replace the first note with the matching id (notes[index] = note after
findIndex). -/
def setFirstById (note : Note) : List Note → List Note
  | [] => []
  | n :: t => if n.id = note.id then note :: t else n :: setFirstById note t

/-- List update performed by SyncService.updateLocalNote: assign over the
first entry with the same id when one exists, otherwise unshift. -/
def upsertNote (notes : List Note) (note : Note) : List Note :=
  if notes.any (fun n => decide (n.id = note.id)) then setFirstById note notes
  else note :: notes

/-- SyncService.updateLocalNote: read, upsert, write back. -/
def updateLocalNote (st : St) (userId : String) (note : Note) : St × List Effect :=
  saveLocalNotes st userId (upsertNote (getLocalNotes st userId) note)

/-- SyncService.removeLocalNote: read, filter the id out, write back. -/
def removeLocalNote (st : St) (userId : String) (noteId : String) : St × List Effect :=
  saveLocalNotes st userId ((getLocalNotes st userId).filter (fun n => decide (n.id ≠ noteId)))

/-- Replace the first thread with the matching id. -/
def setFirstThreadById (thread : ChatThread) : List ChatThread → List ChatThread
  | [] => []
  | t :: r => if t.id = thread.id then thread :: r else t :: setFirstThreadById thread r

/-- SyncService.updateLocalChatThread: read, assign or unshift, write back. -/
def updateLocalChatThread (st : St) (userId : String) (thread : ChatThread) :
    St × List Effect :=
  let threads := getLocalChatThreads st userId
  let threads2 :=
    if threads.any (fun t => decide (t.id = thread.id)) then setFirstThreadById thread threads
    else thread :: threads
  saveLocalChatThreads st userId threads2

/-- Operation record addPendingOperation builds: its id is data.id when that
is truthy, else a template of the kind name and the clock. -/
def mkPendingOp (now : Millis) (type : OpType) (collection : Collection)
    (data : Payload) : PendingOperation :=
  { id := if data.entityId ≠ "" then data.entityId
          else opTypeName type ++ "_" ++ toString now,
    type := type, collection := collection, data := data,
    timestamp := now, retryCount := 0 }

/-- SyncService.addPendingOperation: build the operation, push it, update
pendingChanges and persist the queue. -/
def addPendingOperation (now : Millis) (type : OpType) (collection : Collection)
    (data : Payload) (st : St) : St × List Effect :=
  let op := mkPendingOp now type collection data
  let pending2 := st.pendingOperations ++ [op]
  let st2 : St :=
    { st with pendingOperations := pending2
              pendingChanges := pending2.length
              store := mapSet st.store "pendingOperations" (.opsV (serializeQueue pending2)) }
  (st2, [.storeWrite "pendingOperations"])

/-- Service-level view of SyncService.processPendingOperations: the early
returns write nothing; otherwise the filtered queue replaces
pendingOperations, pendingChanges is recomputed and the queue persisted. -/
def runDrain (env : SyncEnv) (st : St) : St × List Effect :=
  if st.pendingOperations.isEmpty then (st, [])
  else
    match env.user with
    | none => (st, [])
    | some _ =>
      let res := processPendingOperations env.call env.user st.pendingOperations
      let st2 : St :=
        { st with pendingOperations := res.queue
                  pendingChanges := res.queue.length
                  store := mapSet st.store "pendingOperations"
                    (.opsV (serializeQueue res.queue)) }
      (st2, res.calls.map .remote ++ [.storeWrite "pendingOperations"])

/-- SyncService.savePendingOperations acting on the state. -/
def savePendingOperationsSt (st : St) : St :=
  { st with store :=
      mapSet st.store "pendingOperations" (.opsV (serializeQueue st.pendingOperations)) }

/-- SyncService.loadPendingOperations acting on the state: parse the stored
queue, revive each timestamp, and set pendingChanges to the length; a
missing or unparseable key leaves the fields alone. -/
def loadPendingOperationsSt (st : St) : St :=
  match mapGet st.store "pendingOperations" with
  | some (.opsV stored) =>
    { st with pendingOperations := parseQueue stored,
              pendingChanges := (parseQueue stored).length }
  | _ => st

/-! Immediate write path. -/

/-- Create branch of DatabaseService.saveNote: this.createNote resolves to a
note, resolves to null, or rejects; a rejection is caught by the outer catch
of saveNote, which returns null.  The Bool is the truthiness of the value
saveNote returns, the list records the remote calls issued. -/
def dbSaveNoteCreate (co : CreateOutcome) (note : Note) : Bool × List RemoteCall :=
  match co with
  | .okNote => (true, [.createNote (.note note)])
  | .nullNote => (false, [.createNote (.note note)])
  | .errAny => (false, [.createNote (.note note)])

/-- DatabaseService.saveNote: when the note id is truthy and not temp, try
this.updateNote first; a truthy update is returned; a falsy update, and a
rejection with code PGRST116 (row not found), fall through to the create
branch; a rejection with code 42501 (row-level security) returns null; any
other rejection is rethrown and the outer catch returns null.  When the id
is falsy or temp, go straight to create.  The method never rejects. -/
def dbSaveNote (uo : UpdateOutcome) (co : CreateOutcome) (note : Note) :
    Bool × List RemoteCall :=
  if note.id ≠ "" ∧ note.id ≠ "temp" then
    match uo with
    | .okNote => (true, [.updateNote note.id (.note note)])
    | .nullNote =>
      let c := dbSaveNoteCreate co note
      (c.1, .updateNote note.id (.note note) :: c.2)
    | .errNotFound =>
      let c := dbSaveNoteCreate co note
      (c.1, .updateNote note.id (.note note) :: c.2)
    | .errRLS => (false, [.updateNote note.id (.note note)])
    | .errOther => (false, [.updateNote note.id (.note note)])
  else dbSaveNoteCreate co note

/-- SyncService.saveNote: write to local storage first under the
(possibly guest) user key; only when a user is present, not the guest id,
and the status is online, attempt the cloud write through
DatabaseService.saveNote; a falsy result, and a rejection, enqueue a pending
update instead of raising; a guest or missing user stays local-only; an
authenticated non-guest user who is offline enqueues directly.  All failure
paths are caught, so the function is total.  Search indexing is modelled as
a no-op. -/
def saveNote (env : SyncEnv) (st : St) (note : Note) : St × List Effect :=
  let userId := env.userId
  let r1 := updateLocalNote st userId note
  match env.user with
  | some u =>
    if u.id ≠ "guest" ∧ st.isOnline then
      let r := dbSaveNote env.updateNoteOutcome env.createNoteOutcome note
      if r.1 then (r1.1, r1.2 ++ r.2.map .remote)
      else
        let r2 := addPendingOperation env.now .update .notes (.note note) r1.1
        (r2.1, r1.2 ++ r.2.map .remote ++ r2.2)
    else if u.id = "guest" then r1
    else
      let r2 := addPendingOperation env.now .update .notes (.note note) r1.1
      (r2.1, r1.2 ++ r2.2)
  | none => r1

/-- SyncService.deleteNote: local delete first, then the guarded cloud
delete with the same enqueue-on-failure fallback; a guest or missing user
stays local-only. -/
def deleteNote (env : SyncEnv) (st : St) (noteId : String) : St × List Effect :=
  let userId := env.userId
  let r1 := removeLocalNote st userId noteId
  match env.user with
  | some u =>
    if u.id ≠ "guest" ∧ st.isOnline then
      match env.call (.deleteNote noteId) with
      | .ok true => (r1.1, r1.2 ++ [.remote (.deleteNote noteId)])
      | .ok false =>
        let r2 := addPendingOperation env.now .delete .notes (.idOnly noteId) r1.1
        (r2.1, r1.2 ++ [.remote (.deleteNote noteId)] ++ r2.2)
      | .thrown =>
        let r2 := addPendingOperation env.now .delete .notes (.idOnly noteId) r1.1
        (r2.1, r1.2 ++ [.remote (.deleteNote noteId)] ++ r2.2)
    else if u.id = "guest" then r1
    else
      let r2 := addPendingOperation env.now .delete .notes (.idOnly noteId) r1.1
      (r2.1, r1.2 ++ r2.2)
  | none => r1

/-- SyncService.saveChatThread: a missing user saves locally under the guest
key and returns; otherwise local save, then the online-guarded remote
update, falling back to the queue on a falsy or rejected result (the catch
block also enqueues). -/
def saveChatThread (env : SyncEnv) (st : St) (thread : ChatThread) : St × List Effect :=
  match env.user with
  | none => updateLocalChatThread st "guest" thread
  | some u =>
    let r1 := updateLocalChatThread st u.id thread
    if st.isOnline then
      match env.call (.updateChatThread thread.id (.thread thread)) with
      | .ok true => (r1.1, r1.2 ++ [.remote (.updateChatThread thread.id (.thread thread))])
      | .ok false =>
        let r2 := addPendingOperation env.now .update .chatThreads (.thread thread) r1.1
        (r2.1, r1.2 ++ [.remote (.updateChatThread thread.id (.thread thread))] ++ r2.2)
      | .thrown =>
        let r2 := addPendingOperation env.now .update .chatThreads (.thread thread) r1.1
        (r2.1, r1.2 ++ [.remote (.updateChatThread thread.id (.thread thread))] ++ r2.2)
    else
      let r2 := addPendingOperation env.now .update .chatThreads (.thread thread) r1.1
      (r2.1, r1.2 ++ r2.2)

/-! Sync cycle. -/

/-- SyncService.syncNotes: read the local snapshot, await the remote list,
merge (enqueuing each local winner through addPendingOperation), persist the
merged snapshot.  A rejection of the remote read is rethrown by the catch
block and propagates to syncAll. -/
def syncNotes (env : SyncEnv) (st : St) (userId : String) :
    Except (St × List Effect) (St × List Effect) :=
  let localNotes := getLocalNotes st userId
  match env.remoteNotes with
  | .error _ => .error (st, [.remote (.getNotes userId)])
  | .ok cloudNotes =>
    let m := mergeNotes localNotes cloudNotes
    let stw := m.2.foldl
      (fun acc w =>
        let r := addPendingOperation env.now .update .notes (.note w) acc.1
        (r.1, acc.2 ++ r.2))
      (st, ([] : List Effect))
    let r2 := saveLocalNotes stw.1 userId m.1
    .ok (r2.1, [.remote (.getNotes userId)] ++ stw.2 ++ r2.2)

/-- SyncService.syncChatThreads: same shape as syncNotes with the pure
thread merge. -/
def syncChatThreads (env : SyncEnv) (st : St) (userId : String) :
    Except (St × List Effect) (St × List Effect) :=
  let localThreads := getLocalChatThreads st userId
  match env.remoteThreads with
  | .error _ => .error (st, [.remote (.getChatThreads userId)])
  | .ok cloudThreads =>
    let merged := mergeChatThreads localThreads cloudThreads
    let r2 := saveLocalChatThreads st userId merged
    .ok (r2.1, [.remote (.getChatThreads userId)] ++ r2.2)

/-- SyncService.syncLabels: same shape with the label merge. -/
def syncLabels (env : SyncEnv) (st : St) (userId : String) :
    Except (St × List Effect) (St × List Effect) :=
  let localLabels := getLocalLabels st userId
  match env.remoteLabels with
  | .error _ => .error (st, [.remote (.getLabels userId)])
  | .ok cloudLabels =>
    let merged := mergeLabels localLabels cloudLabels
    let r2 := saveLocalLabels st userId merged
    .ok (r2.1, [.remote (.getLabels userId)] ++ r2.2)

/-- SyncService.syncAll: reject immediately when a sync is in progress, when
no user is authenticated, or when offline; otherwise set isSyncing, run the
try block (drain the queue, then sync notes, chat threads and labels in
that order, then record lastSyncTime), let the catch turn any rejection into
a false return, and let the finally clear isSyncing on every exit path of
the entered cycle.  syncCycle is the try/catch/finally body of an entered
cycle, syncAll adds the three guards in front of it. -/
def syncCycle (env : SyncEnv) (st1 : St) (u : AuthUser) : Bool × St × List Effect :=
  let rD := runDrain env st1
  match syncNotes env rD.1 u.id with
  | .error e => (false, { e.1 with isSyncing := false }, rD.2 ++ e.2)
  | .ok rN =>
    match syncChatThreads env rN.1 u.id with
    | .error e => (false, { e.1 with isSyncing := false }, rD.2 ++ rN.2 ++ e.2)
    | .ok rT =>
      match syncLabels env rT.1 u.id with
      | .error e =>
        (false, { e.1 with isSyncing := false }, rD.2 ++ rN.2 ++ rT.2 ++ e.2)
      | .ok rL =>
        let st2 : St :=
          { rL.1 with lastSyncTime := some env.now
                      store := mapSet rL.1.store "lastSyncTime"
                        (.timeV (Nat.digits 10 env.now)) }
        (true, { st2 with isSyncing := false },
         rD.2 ++ rN.2 ++ rT.2 ++ rL.2 ++ [.storeWrite "lastSyncTime"])

/-- Guarded entry point, see the comment on syncCycle. -/
def syncAll (env : SyncEnv) (st : St) : Bool × St × List Effect :=
  if st.isSyncing then (false, st, [])
  else
    match env.user with
    | none => (false, st, [])
    | some u =>
      if !st.isOnline then (false, st, [])
      else syncCycle env { st with isSyncing := true } u

/-! Sequences of user-level operations, for the guest-mode claim. -/

/-- User-visible operations of the engine. -/
inductive UserAction
  | saveN (n : Note)
  | deleteN (id : String)
  | saveT (t : ChatThread)
  | requestSync
deriving Repr, DecidableEq

/-- Run one action; the optional Bool is the return value of syncAll. -/
def runAction (env : SyncEnv) (st : St) : UserAction → St × List Effect × Option Bool
  | .saveN n => let r := saveNote env st n; (r.1, r.2, none)
  | .deleteN i => let r := deleteNote env st i; (r.1, r.2, none)
  | .saveT t => let r := saveChatThread env st t; (r.1, r.2, none)
  | .requestSync => let r := syncAll env st; (r.2.1, r.2.2, some r.1)

/-- Run a sequence of actions, collecting effects and syncAll results. -/
def runActions (env : SyncEnv) (st : St) : List UserAction → St × List Effect × List Bool
  | [] => (st, [], [])
  | a :: rest =>
    let r := runAction env st a
    let rr := runActions env r.1 rest
    (rr.1, r.2.1 ++ rr.2.1, r.2.2.toList ++ rr.2.2)

/-! Reference functions the theorems are phrased with. -/

/-- The guard of the direct cloud attempt in SyncService.saveNote and
SyncService.deleteNote: user present, not the guest id, and online. -/
def cloudAttempt (env : SyncEnv) (st : St) : Bool :=
  match env.user with
  | some u => decide (u.id ≠ "guest") && st.isOnline
  | none => false

/-- Reference lookup for the merged note collection: last write wins by
updatedAt, the tie kept on the local side. -/
def mergedNoteLookup (L R : List Note) (i : String) : Option Note :=
  match findByKey (fun n => n.id) i L, findByKey (fun n => n.id) i R with
  | none, none => none
  | some l, none => some l
  | none, some r => some r
  | some l, some r => if r.updatedAt > l.updatedAt then some r else some l

/-- Reference local-winner computation for the note merge: the cloud notes
iterated in order, each contributing the strictly newer local note with its
id when there is one. -/
def noteWinners (L R : List Note) : List Note :=
  R.filterMap (fun c =>
    match findByKey (fun n => n.id) c.id L with
    | none => none
    | some l =>
      if c.updatedAt > l.updatedAt then none
      else if l.updatedAt > c.updatedAt then some l
      else none)

/-- Reference lookup for the merged chat-thread collection. -/
def mergedThreadLookup (L R : List ChatThread) (i : String) : Option ChatThread :=
  match findByKey (fun t => t.id) i L, findByKey (fun t => t.id) i R with
  | none, none => none
  | some l, none => some l
  | none, some r => some r
  | some l, some r => if r.updatedAt > l.updatedAt then some r else some l

/-- Reference lookup for the merged label collection: the remote label
unconditionally, else the local one. -/
def mergedLabelLookup (L R : List Label) (i : String) : Option Label :=
  match findByKey (fun l => l.id) i R with
  | some r => some r
  | none => findByKey (fun l => l.id) i L

/-- Queue contents after one drain pass, for iterating drains. -/
def drainQueueStep (call : RemoteCall → RemoteResult) (u : AuthUser)
    (ops : List PendingOperation) : List PendingOperation :=
  (processPendingOperations call (some u) ops).queue

/-- Iterate the drain k times over the queue. -/
def iterDrain (call : RemoteCall → RemoteResult) (u : AuthUser) :
    Nat → List PendingOperation → List PendingOperation
  | 0, ops => ops
  | k + 1, ops => iterDrain call u k (drainQueueStep call u ops)

/-! Concrete sample data for witnesses and counterexamples. -/

/-- Sample note constructor: id, title and updatedAt vary, the rest fixed. -/
def sampleNote (i title : String) (upd : Millis) : Note :=
  { id := i, title := title, content := "", color := "#ffffff", isPinned := false,
    labels := [], images := [], createdAt := 0, updatedAt := upd }

/-- Sample chat thread constructor. -/
def sampleThread (i title : String) (upd : Millis) : ChatThread :=
  { id := i, title := title, messages := [], createdAt := 0, updatedAt := upd }

/-- Sample authenticated user. -/
def sampleUser : AuthUser := { id := "u1", email := "u1@example.com", name := "U" }

/-- Fresh service state: nothing stored, idle, online. -/
def emptySt : St :=
  { isSyncing := false, isOnline := true, lastSyncTime := none,
    pendingOperations := [], pendingChanges := 0, store := [] }

/-- Remote oracle whose calls all resolve truthy. -/
def okCalls : RemoteCall → RemoteResult := fun _ => .ok true

/-- Remote oracle whose calls all resolve falsy. -/
def falsyCalls : RemoteCall → RemoteResult := fun _ => .ok false

/-- Remote oracle whose calls all reject. -/
def rejectCalls : RemoteCall → RemoteResult := fun _ => .thrown

/-- Environment with no authenticated user (guest mode). -/
def guestEnv : SyncEnv :=
  { user := none, now := 1000, remoteNotes := .ok [], remoteThreads := .ok [],
    remoteLabels := .ok [], call := okCalls, updateNoteOutcome := .okNote,
    createNoteOutcome := .okNote }

/-- Environment with the sample authenticated user and a healthy remote. -/
def userEnv : SyncEnv := { guestEnv with user := some sampleUser }

/-- Sample pending operation on the notes collection. -/
def sampleOp : PendingOperation :=
  { id := "n1", type := .update, collection := .notes,
    data := .note (sampleNote "n1" "T" 5), timestamp := 0, retryCount := 0 }

/-- Sample pending label create that will succeed against okCalls. -/
def sampleLabelCreate : PendingOperation :=
  { id := "L1", type := .create, collection := .labels,
    data := .label { id := "L1", name := "work" }, timestamp := 0, retryCount := 0 }

/-- Sample pending label update, the kind the replay dispatcher never
handles. -/
def sampleLabelUpdate : PendingOperation :=
  { id := "L1", type := .update, collection := .labels,
    data := .label { id := "L1", name := "work" }, timestamp := 0, retryCount := 0 }

/-- Environment whose remote notes read returns one stale note with id a. -/
def staleRemoteEnv : SyncEnv :=
  { userEnv with remoteNotes := .ok [sampleNote "a" "old title" 3] }

/-- State whose local notes for user u1 hold a strictly newer note with the
same id a, and whose pending-operation queue is empty. -/
def newerLocalSt : St :=
  { emptySt with store := [("notes_u1", .notesV [sampleNote "a" "new title" 9])] }

/-- Environment in which the remote notes read rejects while the remote
chat-thread and label reads would succeed with fresh data. -/
def abortEnv : SyncEnv :=
  { userEnv with remoteNotes := .error ()
                 remoteThreads := .ok [sampleThread "t1" "Cloud thread" 7]
                 remoteLabels := .ok [{ id := "L1", name := "work" }] }

/-! Basic lemmas about the map model. -/

theorem mapGet_mapSet (m : List (String × α)) (k q : String) (v : α) :
    mapGet (mapSet m k v) q = if q = k then some v else mapGet m q := by
  induction m with
  | nil =>
    by_cases hq : q = k
    · simp [mapSet, mapGet, hq]
    · simp only [mapSet, mapGet, if_neg hq]
      rw [if_neg (fun h => hq h.symm)]
  | cons p t ih =>
    by_cases hp : p.1 = k
    · by_cases hq : q = k
      · simp [mapSet, mapGet, hp, hq]
      · simp only [mapSet, if_pos hp, mapGet, if_neg hq]
        rw [if_neg (fun h => hq h.symm), if_neg (fun h => hq (hp ▸ h).symm)]
    · by_cases hq : q = k
      · simp only [mapSet, if_neg hp, mapGet, if_pos hq, ih]
        rw [if_neg (fun h : p.1 = q => hp (hq ▸ h))]
      · simp only [mapSet, if_neg hp, mapGet, if_neg hq, ih]

theorem notesKey_ne_pendingKey (u : String) : ("notes_" ++ u) ≠ "pendingOperations" := by
  intro h
  have h2 := congrArg String.data h
  rw [String.data_append] at h2
  have h3 : "notes_".data = ['n', 'o', 't', 'e', 's', '_'] := rfl
  rw [h3] at h2
  simp [List.cons_eq_cons] at h2

theorem threadsKey_ne_pendingKey (u : String) :
    ("chatThreads_" ++ u) ≠ "pendingOperations" := by
  intro h
  have h2 := congrArg String.data h
  rw [String.data_append] at h2
  have h3 : "chatThreads_".data =
      ['c', 'h', 'a', 't', 'T', 'h', 'r', 'e', 'a', 'd', 's', '_'] := rfl
  rw [h3] at h2
  simp [List.cons_eq_cons] at h2

/-! Queue serialization round trip. -/

theorem deserializeOp_serializeOp (op : PendingOperation) :
    deserializeOp (serializeOp op) = op := by
  simp [serializeOp, deserializeOp, Nat.ofDigits_digits]

theorem parseQueue_serializeQueue (ops : List PendingOperation) :
    parseQueue (serializeQueue ops) = ops := by
  induction ops with
  | nil => rfl
  | cons op rest ih =>
    simp [parseQueue, serializeQueue] at ih ⊢
    exact ⟨deserializeOp_serializeOp op, ih⟩

/-- Claim C9: serializing the pending-operation queue and reloading it
yields the same operations in the same order, with every timestamp parsed
back to an equal instant; across a process restart (a fresh service state
holding only the persisted storage), loadPendingOperations reproduces the
queue exactly, so no entry is lost or duplicated. -/
theorem claim_C9_queue_roundtrip (ops : List PendingOperation) (st fresh : St) :
    parseQueue (serializeQueue ops) = ops ∧
    (loadPendingOperationsSt
        { fresh with store := (savePendingOperationsSt st).store }).pendingOperations =
      st.pendingOperations ∧
    (loadPendingOperationsSt
        { fresh with store := (savePendingOperationsSt st).store }).pendingChanges =
      st.pendingOperations.length := by
  refine ⟨parseQueue_serializeQueue ops, ?_, ?_⟩ <;>
    simp [loadPendingOperationsSt, savePendingOperationsSt, mapGet_mapSet,
      parseQueue_serializeQueue]

/-! Claim C8: coalescing of pending operations. -/

/-- Claim C8, counterexample: enqueuing two note updates for the same entity
id leaves both operations in the queue; the earlier unsent one is not
superseded, so the queue does hold two unsent operations of the same kind
for the same id, refuting the claimed coalescing. -/
theorem claim_C8_cex :
    ((addPendingOperation 5 .update .notes (.idOnly "X")
        (addPendingOperation 3 .update .notes (.idOnly "X") emptySt).1).1.pendingOperations.map
      (fun o => (o.id, o.type))) =
      [("X", OpType.update), ("X", OpType.update)] := by
  decide

/-- Claim C8, amended: addPendingOperation always appends a fresh entry with
retryCount zero and updates pendingChanges to the new length; a later write
for an id with an unsent pending operation of the same kind does not
supersede it, the queue simply grows by one entry. -/
theorem claim_C8_append (now : Millis) (type : OpType) (collection : Collection)
    (data : Payload) (st : St) :
    (addPendingOperation now type collection data st).1.pendingOperations =
      st.pendingOperations ++ [mkPendingOp now type collection data] ∧
    (addPendingOperation now type collection data st).1.pendingChanges =
      st.pendingOperations.length + 1 ∧
    (mkPendingOp now type collection data).retryCount = 0 := by
  refine ⟨rfl, ?_, rfl⟩
  simp [addPendingOperation]

/-! Claim C1: the isSyncing guard and its reset. -/

/-- Claim C1: a call to syncAll while isSyncing is true returns false at
once with the state unchanged and no remote call or storage write; and for
a call that starts with the flag clear, every exit path of syncAll,
including the paths where the queue drain result or a collection sync
rejects, leaves isSyncing false (the finally block), so in the
single-threaded event-loop model at most one sync cycle is in progress. -/
theorem claim_C1_syncAll_guard (env : SyncEnv) (st : St) :
    (st.isSyncing = true → syncAll env st = (false, st, [])) ∧
    (st.isSyncing = false → (syncAll env st).2.1.isSyncing = false) := by
  constructor
  · intro h
    simp [syncAll, h]
  · intro h
    have hcycle : ∀ st1 u, (syncCycle env st1 u).2.1.isSyncing = false := by
      intro st1 u
      rw [syncCycle]
      rcases hN : syncNotes env (runDrain env st1).1 u.id with e | rN
      · simp [hN]
      · simp only [hN]
        rcases hT : syncChatThreads env rN.1 u.id with e | rT
        · simp [hT]
        · simp only [hT]
          rcases hL : syncLabels env rT.1 u.id with e | rL <;> simp [hL]
    rw [syncAll]
    cases env.user with
    | none => simp [h]
    | some u =>
      by_cases hon : st.isOnline = true
      · simp [h, hon, hcycle]
      · simp only [Bool.not_eq_true] at hon
        simp [h, hon]

/-! Claim C3: isolation of collection syncs. -/

/-- Claim C3: evaluating a sync cycle at the failing input where the remote
notes read rejects while the remote holds a fresh chat thread and a fresh
label.  The cycle issues only the notes read, returns false, and leaves the
chat-thread and label keys of local storage unwritten: the single try block
of syncAll lets the rethrow from syncNotes abort the remaining collections,
so they are neither read nor merged nor saved, against the stated isolation
requirement (the spec design notes call this source behavior unintentional).
The finally still clears isSyncing. -/
theorem claim_C3_abort_on_notes_failure :
    (syncAll abortEnv emptySt).1 = false ∧
    (syncAll abortEnv emptySt).2.2 = [Effect.remote (.getNotes "u1")] ∧
    mapGet (syncAll abortEnv emptySt).2.1.store "chatThreads_u1" = none ∧
    mapGet (syncAll abortEnv emptySt).2.1.store "labels_u1" = none ∧
    (syncAll abortEnv emptySt).2.1.isSyncing = false := by
  decide

/-- Claim C1, witness: at a concrete busy state the call is rejected with no
effects, and at a concrete idle state the flag is clear on exit. -/
theorem claim_C1_witness :
    syncAll userEnv { emptySt with isSyncing := true } =
      (false, { emptySt with isSyncing := true }, []) ∧
    (syncAll userEnv emptySt).2.1.isSyncing = false :=
  ⟨(claim_C1_syncAll_guard userEnv { emptySt with isSyncing := true }).1 rfl,
   (claim_C1_syncAll_guard userEnv emptySt).2 rfl⟩

/-! Claim C4: the retry ceiling of the pending-operation queue. -/

theorem attemptOp_retry_irrel (call : RemoteCall → RemoteResult)
    (op : PendingOperation) (r : Nat) :
    attemptOp call { op with retryCount := r } = attemptOp call op := by
  cases op with
  | mk i ty co da ts rc => cases co <;> cases ty <;> rfl

theorem drain_single (call : RemoteCall → RemoteResult) (u : AuthUser)
    (op : PendingOperation) :
    processPendingOperations call (some u) [op] =
      match (attemptOp call op).1 with
      | .ok true => ⟨[], [op.id], [], (attemptOp call op).2⟩
      | .ok false =>
        if MAX_RETRY_COUNT ≤ op.retryCount + 1 then
          ⟨[], [op.id], [op.id], (attemptOp call op).2⟩
        else
          ⟨[{ op with retryCount := op.retryCount + 1 }], [], [], (attemptOp call op).2⟩
      | .thrown =>
        ⟨[{ op with retryCount := op.retryCount + 1 }], [], [], (attemptOp call op).2⟩ := by
  rcases ha : (attemptOp call op).1 with t | _
  · cases t
    · by_cases hc : MAX_RETRY_COUNT ≤ op.retryCount + 1 <;>
        simp [processPendingOperations, drainLoop, ha, hc]
    · simp [processPendingOperations, drainLoop, ha]
  · simp [processPendingOperations, drainLoop, ha]

theorem iterDrain_thrown (call : RemoteCall → RemoteResult) (u : AuthUser) :
    ∀ (k : Nat) (op : PendingOperation), (attemptOp call op).1 = .thrown →
      iterDrain call u k [op] = [{ op with retryCount := op.retryCount + k }] := by
  intro k
  induction k with
  | zero => intro op h; cases op; simp [iterDrain]
  | succ k ih =>
    intro op h
    have hstep : drainQueueStep call u [op] = [{ op with retryCount := op.retryCount + 1 }] := by
      simp [drainQueueStep, drain_single, h]
    have hna : (attemptOp call { op with retryCount := op.retryCount + 1 }).1 = .thrown := by
      rw [attemptOp_retry_irrel]; exact h
    calc iterDrain call u (k + 1) [op]
        = iterDrain call u k [{ op with retryCount := op.retryCount + 1 }] := by
          rw [iterDrain, hstep]
      _ = [{ op with retryCount := op.retryCount + 1 + k }] := ih _ hna
      _ = [{ op with retryCount := op.retryCount + (k + 1) }] := by
          have harith : op.retryCount + 1 + k = op.retryCount + (k + 1) := by omega
          rw [harith]

/-- Claim C4, amended: the retry ceiling only governs replays that resolve
to a failure value.  An operation whose replay succeeds leaves the queue
immediately and is not reported dropped.  An operation whose replay resolves
falsy on every attempt stays in the queue for exactly MAX_RETRY_COUNT = 3
attempts and is then removed and reported dropped.  But an operation whose
replay rejects is only retry-bumped by the catch block, which never removes
it: after any number of rejecting attempts it is still in the queue, against
the claim that rejecting replays are also dropped at the ceiling. -/
theorem claim_C4_retry_ceiling (call : RemoteCall → RemoteResult) (u : AuthUser)
    (op : PendingOperation) (h0 : op.retryCount = 0) :
    ((attemptOp call op).1 = .ok true →
      iterDrain call u 1 [op] = [] ∧
      (processPendingOperations call (some u) [op]).droppedIds = []) ∧
    ((attemptOp call op).1 = .ok false →
      iterDrain call u 1 [op] = [{ op with retryCount := 1 }] ∧
      iterDrain call u 2 [op] = [{ op with retryCount := 2 }] ∧
      iterDrain call u 3 [op] = [] ∧
      (processPendingOperations call (some u)
          [{ op with retryCount := 2 }]).droppedIds = [op.id]) ∧
    ((attemptOp call op).1 = .thrown →
      ∀ k, iterDrain call u k [op] = [{ op with retryCount := k }]) := by
  refine ⟨?_, ?_, ?_⟩
  · intro h
    constructor
    · simp [iterDrain, drainQueueStep, drain_single, h]
    · simp [drain_single, h]
  · intro h
    have ha1 : (attemptOp call { op with retryCount := 1 }).1 = .ok false := by
      rw [attemptOp_retry_irrel]; exact h
    have ha2 : (attemptOp call { op with retryCount := 2 }).1 = .ok false := by
      rw [attemptOp_retry_irrel]; exact h
    have hs1 : drainQueueStep call u [op] = [{ op with retryCount := 1 }] := by
      simp [drainQueueStep, drain_single, h, h0, MAX_RETRY_COUNT]
    have hs2 : drainQueueStep call u [{ op with retryCount := 1 }] =
        [{ op with retryCount := 2 }] := by
      simp [drainQueueStep, drain_single, ha1, MAX_RETRY_COUNT]
    have hs3 : drainQueueStep call u [{ op with retryCount := 2 }] = [] := by
      simp [drainQueueStep, drain_single, ha2, MAX_RETRY_COUNT]
    have e1 : ∀ ops, iterDrain call u 1 ops = drainQueueStep call u ops := fun _ => rfl
    have e2 : ∀ ops, iterDrain call u 2 ops =
        iterDrain call u 1 (drainQueueStep call u ops) := fun _ => rfl
    have e3 : ∀ ops, iterDrain call u 3 ops =
        iterDrain call u 2 (drainQueueStep call u ops) := fun _ => rfl
    have h1 : iterDrain call u 1 [op] = [{ op with retryCount := 1 }] := by
      rw [e1, hs1]
    have h2 : iterDrain call u 2 [op] = [{ op with retryCount := 2 }] := by
      rw [e2, hs1, e1, hs2]
    have h3 : iterDrain call u 3 [op] = [] := by
      rw [e3, hs1, e2, hs2, e1, hs3]
    refine ⟨h1, h2, h3, ?_⟩
    simp [drain_single, ha2, MAX_RETRY_COUNT]
  · intro h k
    have := iterDrain_thrown call u k op h
    rw [h0] at this
    simpa using this

/-- Claim C4, witness: a concrete operation whose replay always resolves
falsy is present after one and two drains and gone, reported dropped, after
the third. -/
theorem claim_C4_witness :
    iterDrain falsyCalls sampleUser 1 [sampleOp] = [{ sampleOp with retryCount := 1 }] ∧
    iterDrain falsyCalls sampleUser 2 [sampleOp] = [{ sampleOp with retryCount := 2 }] ∧
    iterDrain falsyCalls sampleUser 3 [sampleOp] = [] ∧
    (processPendingOperations falsyCalls (some sampleUser)
        [{ sampleOp with retryCount := 2 }]).droppedIds = [sampleOp.id] :=
  (claim_C4_retry_ceiling falsyCalls sampleUser sampleOp rfl).2.1 rfl

/-- Claim C4, counterexample: a concrete operation whose replay always
rejects is still in the queue after three attempts, and after four, where
the claim requires it to be removed after exactly three. -/
theorem claim_C4_cex :
    iterDrain rejectCalls sampleUser 3 [sampleOp] = [{ sampleOp with retryCount := 3 }] ∧
    (iterDrain rejectCalls sampleUser 4 [sampleOp]).length = 1 := by
  decide

/-! Claim C10: pending label updates. -/

theorem drainLoop_processed_ids (call : RemoteCall → RemoteResult)
    (ops : List PendingOperation) :
    ((drainLoop call ops).processed).map (fun o => o.id) = ops.map (fun o => o.id) := by
  induction ops with
  | nil => rfl
  | cons op rest ih =>
    rcases ha : (attemptOp call op).1 with t | _
    · cases t
      · by_cases hc : MAX_RETRY_COUNT ≤ op.retryCount + 1 <;>
          simp [drainLoop, ha, hc, ih]
      · simp [drainLoop, ha, ih]
    · simp [drainLoop, ha, ih]

theorem mem_drainLoop_successIds (call : RemoteCall → RemoteResult)
    (ops : List PendingOperation) (i : String) :
    i ∈ (drainLoop call ops).successIds ↔
      ∃ o ∈ ops, o.id = i ∧ ((attemptOp call o).1 = .ok true ∨
        ((attemptOp call o).1 = .ok false ∧ MAX_RETRY_COUNT ≤ o.retryCount + 1)) := by
  induction ops with
  | nil => simp [drainLoop]
  | cons op rest ih =>
    have swept : ∀ C : PendingOperation → Prop, C op →
        ((i = op.id ∨ ∃ o ∈ rest, o.id = i ∧ C o) ↔
          ∃ o, (o = op ∨ o ∈ rest) ∧ o.id = i ∧ C o) := by
      intro C hCop
      constructor
      · rintro (h | ⟨o, hm, hi, hC⟩)
        · exact ⟨op, Or.inl rfl, h.symm, hCop⟩
        · exact ⟨o, Or.inr hm, hi, hC⟩
      · rintro ⟨o, hm | hm, hi, hC⟩
        · subst hm; exact Or.inl hi.symm
        · exact Or.inr ⟨o, hm, hi, hC⟩
    have skipped : ∀ C : PendingOperation → Prop, ¬ C op →
        ((∃ o ∈ rest, o.id = i ∧ C o) ↔
          ∃ o, (o = op ∨ o ∈ rest) ∧ o.id = i ∧ C o) := by
      intro C hCop
      constructor
      · rintro ⟨o, hm, hi, hC⟩
        exact ⟨o, Or.inr hm, hi, hC⟩
      · rintro ⟨o, hm | hm, hi, hC⟩
        · subst hm; exact absurd hC hCop
        · exact ⟨o, hm, hi, hC⟩
    rcases ha : (attemptOp call op).1 with t | _
    · cases t
      · by_cases hc : MAX_RETRY_COUNT ≤ op.retryCount + 1
        · simp only [drainLoop, ha, hc, if_true, List.mem_cons, ih]
          exact swept _ (Or.inr ⟨ha, hc⟩)
        · simp only [drainLoop, ha, hc, if_false, List.mem_cons, ih]
          refine skipped _ ?_
          rintro (h | ⟨h1, h2⟩)
          · rw [ha] at h; exact RemoteResult.noConfusion h (fun hb => Bool.noConfusion hb)
          · exact hc h2
      · simp only [drainLoop, ha, List.mem_cons, ih]
        exact swept _ (Or.inl ha)
    · simp only [drainLoop, ha, List.mem_cons, ih]
      refine skipped _ ?_
      rintro (h | ⟨h1, h2⟩)
      · rw [ha] at h; exact RemoteResult.noConfusion h
      · rw [ha] at h1; exact RemoteResult.noConfusion h1

/-- Claim C10, amended: replaying a pending operation with collection labels
and kind update always resolves falsy without issuing any remote call (the
label dispatcher covers only create and delete), so such an operation is
never applied to the remote store; it leaves the queue only when its id is
collected in a drain, which happens exactly when some operation bearing the
same id either replays successfully or reaches the retry ceiling in that
drain (removal filters by operation id); an operation whose id is never
collected stays in the queue. -/
theorem claim_C10_label_update (call : RemoteCall → RemoteResult) (u : AuthUser)
    (ops : List PendingOperation) (op : PendingOperation) :
    (op.collection = .labels → op.type = .update → attemptOp call op = (.ok false, [])) ∧
    (∀ i, i ∈ (processPendingOperations call (some u) ops).successIds ↔
      ∃ o ∈ ops, o.id = i ∧ ((attemptOp call o).1 = .ok true ∨
        ((attemptOp call o).1 = .ok false ∧ MAX_RETRY_COUNT ≤ o.retryCount + 1))) ∧
    (op ∈ ops → op.id ∉ (processPendingOperations call (some u) ops).successIds →
      ∃ o ∈ (processPendingOperations call (some u) ops).queue, o.id = op.id) := by
  refine ⟨?_, ?_, ?_⟩
  · intro hc ht
    cases op with
    | mk i ty co da ts rc =>
      simp only at hc ht
      subst hc; subst ht; rfl
  · intro i
    by_cases hops : ops.isEmpty
    · rw [List.isEmpty_iff] at hops
      subst hops
      simp [processPendingOperations]
    · simp only [processPendingOperations, hops, if_false]
      exact mem_drainLoop_successIds call ops i
  · intro hmem hns
    by_cases hops : ops.isEmpty
    · rw [List.isEmpty_iff] at hops
      subst hops
      simp at hmem
    · simp only [processPendingOperations, hops, if_false] at hns ⊢
      have hid : op.id ∈ ((drainLoop call ops).processed).map (fun o => o.id) := by
        rw [drainLoop_processed_ids]
        exact List.mem_map.2 ⟨op, hmem, rfl⟩
      rcases List.mem_map.1 hid with ⟨o, ho, hoid⟩
      refine ⟨o, ?_, hoid⟩
      apply List.mem_filter.2
      refine ⟨ho, ?_⟩
      simp only [decide_eq_true_eq]
      rw [hoid]
      exact hns

/-- Claim C10, witness: the concrete pending label update replays falsy with
no remote call. -/
theorem claim_C10_witness :
    attemptOp okCalls sampleLabelUpdate = (.ok false, []) :=
  (claim_C10_label_update okCalls sampleUser [] sampleLabelUpdate).1 rfl rfl

/-- Claim C10, counterexample: with a pending label create and a pending
label update sharing the id L1, one drain against a healthy remote removes
both entries, the update after a single falsy attempt (retryCount one, far
from the ceiling) and with nothing reported dropped; the update has left the
queue without reaching the retry ceiling, refuting the claim that the
ceiling is its only exit. -/
theorem claim_C10_cex :
    (processPendingOperations okCalls (some sampleUser)
        [sampleLabelCreate, sampleLabelUpdate]).queue = [] ∧
    (processPendingOperations okCalls (some sampleUser)
        [sampleLabelCreate, sampleLabelUpdate]).droppedIds = [] := by
  decide

/-! Claim C5: the immediate note-save path. -/

theorem mem_setFirstById (note : Note) (notes : List Note)
    (h : ∃ n ∈ notes, n.id = note.id) : note ∈ setFirstById note notes := by
  induction notes with
  | nil => rcases h with ⟨n, hn, _⟩; cases hn
  | cons m t ih =>
    by_cases hm : m.id = note.id
    · simp [setFirstById, hm]
    · rcases h with ⟨n, hn, hid⟩
      rcases List.mem_cons.1 hn with rfl | hn2
      · exact absurd hid hm
      · simp only [setFirstById, if_neg hm, List.mem_cons]
        exact Or.inr (ih ⟨n, hn2, hid⟩)

theorem mem_upsertNote (notes : List Note) (note : Note) :
    note ∈ upsertNote notes note := by
  by_cases h : notes.any (fun n => decide (n.id = note.id)) = true
  · rw [upsertNote, if_pos h]
    apply mem_setFirstById
    rcases List.any_eq_true.1 h with ⟨n, hn, hd⟩
    exact ⟨n, hn, of_decide_eq_true hd⟩
  · rw [upsertNote, if_neg h]
    exact List.mem_cons_self note notes

theorem getLocalNotes_saveLocalNotes (st : St) (uid : String) (ns : List Note) :
    getLocalNotes (saveLocalNotes st uid ns).1 uid = ns := by
  simp [getLocalNotes, saveLocalNotes, mapGet_mapSet]

theorem getLocalNotes_addPending (now : Millis) (ty : OpType) (co : Collection)
    (p : Payload) (st : St) (uid : String) :
    getLocalNotes (addPendingOperation now ty co p st).1 uid = getLocalNotes st uid := by
  simp [getLocalNotes, addPendingOperation, mapGet_mapSet, notesKey_ne_pendingKey uid]

theorem dbSaveNote_calls_ne_nil (uo : UpdateOutcome) (co : CreateOutcome) (note : Note) :
    (dbSaveNote uo co note).2 ≠ [] := by
  by_cases hid : note.id ≠ "" ∧ note.id ≠ "temp" <;>
    cases uo <;> cases co <;> simp [dbSaveNote, dbSaveNoteCreate, hid]

theorem dbSaveNote_notFound_creates (co : CreateOutcome) (note : Note) :
    RemoteCall.createNote (.note note) ∈ (dbSaveNote .errNotFound co note).2 := by
  by_cases hid : note.id ≠ "" ∧ note.id ≠ "temp" <;>
    cases co <;> simp [dbSaveNote, dbSaveNoteCreate, hid]

theorem dbSaveNote_notFound_okCreate (note : Note) :
    (dbSaveNote .errNotFound .okNote note).1 = true := by
  by_cases hid : note.id ≠ "" ∧ note.id ≠ "temp" <;>
    simp [dbSaveNote, dbSaveNoteCreate, hid]

/-- Claim C5: every note save writes to local storage first and
unconditionally (the first effect is the write to the notes key of the
current or guest user, and the note is in the stored collection afterwards,
whatever the authentication, connectivity and remote outcomes); a remote
write is attempted exactly when a non-guest user is present and the status
is online; the queue grows by a pending update exactly on a falsy or
rejected remote outcome, or when an authenticated non-guest user is offline,
and never for a guest; a not-found update outcome leads to a create call,
and when that create succeeds nothing is enqueued.  The function is total
over every remote outcome, including rejections, so the caller never sees
an exception. -/
theorem claim_C5_saveNote (env : SyncEnv) (st : St) (note : Note) :
    (saveNote env st note).2.head? = some (.storeWrite ("notes_" ++ env.userId)) ∧
    note ∈ getLocalNotes (saveNote env st note).1 env.userId ∧
    ((∃ c, Effect.remote c ∈ (saveNote env st note).2) ↔ cloudAttempt env st = true) ∧
    (saveNote env st note).1.pendingOperations = st.pendingOperations ++
      (if cloudAttempt env st then
        (if (dbSaveNote env.updateNoteOutcome env.createNoteOutcome note).1 then []
         else [mkPendingOp env.now .update .notes (.note note)])
       else if env.user.isSome = true ∧ env.userId ≠ "guest" then
         [mkPendingOp env.now .update .notes (.note note)]
       else []) ∧
    (cloudAttempt env st = true → env.updateNoteOutcome = .errNotFound →
      Effect.remote (.createNote (.note note)) ∈ (saveNote env st note).2 ∧
      (env.createNoteOutcome = .okNote →
        (saveNote env st note).1.pendingOperations = st.pendingOperations)) := by
  rcases hu : env.user with _ | u
  · have hca : cloudAttempt env st = false := by simp [cloudAttempt, hu]
    have huid : env.userId = "guest" := by simp [SyncEnv.userId, hu]
    refine ⟨?_, ?_, ?_, ?_, ?_⟩ <;>
      simp [saveNote, hu, hca, huid, updateLocalNote, saveLocalNotes,
        getLocalNotes_saveLocalNotes, mem_upsertNote, getLocalNotes, mapGet_mapSet]
  · have huid : env.userId = u.id := by simp [SyncEnv.userId, hu]
    by_cases hg : u.id = "guest"
    · have hca : cloudAttempt env st = false := by simp [cloudAttempt, hu, hg]
      have hcond : ¬ (u.id ≠ "guest" ∧ st.isOnline = true) := by simp [hg]
      refine ⟨?_, ?_, ?_, ?_, ?_⟩ <;>
        simp [saveNote, hu, hca, huid, hg, hcond, updateLocalNote,
          getLocalNotes_saveLocalNotes, mem_upsertNote, saveLocalNotes,
          getLocalNotes, mapGet_mapSet]
    · by_cases hon : st.isOnline = true
      · have hca : cloudAttempt env st = true := by simp [cloudAttempt, hu, hg, hon]
        by_cases hr : (dbSaveNote env.updateNoteOutcome env.createNoteOutcome note).1 = true
        · refine ⟨?_, ?_, ?_, ?_, ?_⟩
          · simp [saveNote, hu, hg, hon, hr, updateLocalNote, saveLocalNotes]
          · simp [saveNote, hu, hg, hon, hr, huid, updateLocalNote, saveLocalNotes,
              getLocalNotes, mapGet_mapSet, mem_upsertNote]
          · refine iff_of_true ?_ hca
            rcases hne : (dbSaveNote env.updateNoteOutcome env.createNoteOutcome note).2 with
              _ | ⟨c, cs⟩
            · exact absurd hne (dbSaveNote_calls_ne_nil _ _ _)
            · refine ⟨c, ?_⟩
              simp [saveNote, hu, hg, hon, hr, updateLocalNote, saveLocalNotes, hne]
          · simp [saveNote, hu, hg, hon, hr, hca, updateLocalNote, saveLocalNotes]
          · intro _ hnf
            constructor
            · have hmem := dbSaveNote_notFound_creates env.createNoteOutcome note
              rw [← hnf] at hmem
              have hmem2 : Effect.remote (.createNote (.note note)) ∈
                  List.map Effect.remote
                    (dbSaveNote env.updateNoteOutcome env.createNoteOutcome note).2 :=
                List.mem_map_of_mem _ hmem
              simp only [saveNote, hu, hg, hon, hr, updateLocalNote, saveLocalNotes]
              simp only [ne_eq, hg, not_false_eq_true, hon, and_self, if_true, hr,
                if_true]
              exact List.mem_cons_of_mem _ hmem2
            · intro _
              simp [saveNote, hu, hg, hon, hr, updateLocalNote, saveLocalNotes]
        · refine ⟨?_, ?_, ?_, ?_, ?_⟩
          · simp [saveNote, hu, hg, hon, hr, updateLocalNote, saveLocalNotes]
          · simp [saveNote, hu, hg, hon, hr, huid, updateLocalNote, saveLocalNotes,
              addPendingOperation, getLocalNotes, mapGet_mapSet,
              notesKey_ne_pendingKey, mem_upsertNote]
          · refine iff_of_true ?_ hca
            rcases hne : (dbSaveNote env.updateNoteOutcome env.createNoteOutcome note).2 with
              _ | ⟨c, cs⟩
            · exact absurd hne (dbSaveNote_calls_ne_nil _ _ _)
            · refine ⟨c, ?_⟩
              simp [saveNote, hu, hg, hon, hr, updateLocalNote, saveLocalNotes,
                addPendingOperation, hne]
          · simp [saveNote, hu, hg, hon, hr, hca, updateLocalNote, saveLocalNotes,
              addPendingOperation]
          · intro _ hnf
            constructor
            · have hmem := dbSaveNote_notFound_creates env.createNoteOutcome note
              rw [← hnf] at hmem
              have hmem2 : Effect.remote (.createNote (.note note)) ∈
                  List.map Effect.remote
                    (dbSaveNote env.updateNoteOutcome env.createNoteOutcome note).2 :=
                List.mem_map_of_mem _ hmem
              simp only [saveNote, hu, hg, hon, hr, updateLocalNote, saveLocalNotes]
              simp only [ne_eq, hg, not_false_eq_true, hon, and_self, if_true, hr,
                if_false, Bool.false_eq_true]
              exact List.mem_cons_of_mem _ (List.mem_append_left _ hmem2)
            · intro hco
              have hok : (dbSaveNote env.updateNoteOutcome
                  env.createNoteOutcome note).1 = true := by
                rw [hnf, hco]; exact dbSaveNote_notFound_okCreate note
              exact absurd hok hr
      · have hof : st.isOnline = false := by
          rcases Bool.eq_false_or_eq_true st.isOnline with h | h
          · exact absurd h hon
          · exact h
        have hca : cloudAttempt env st = false := by simp [cloudAttempt, hu, hof]
        refine ⟨?_, ?_, ?_, ?_, ?_⟩
        · simp [saveNote, hu, hof, hg, updateLocalNote, saveLocalNotes]
        · simp [saveNote, hu, hof, hg, huid, updateLocalNote, saveLocalNotes,
            addPendingOperation, getLocalNotes, mapGet_mapSet,
            notesKey_ne_pendingKey, mem_upsertNote]
        · refine iff_of_false ?_ (by simp [hca])
          rintro ⟨c, hc⟩
          revert hc
          simp [saveNote, hu, hof, hg, updateLocalNote, saveLocalNotes,
            addPendingOperation]
        · simp [saveNote, hu, hof, hg, hca, huid, updateLocalNote, saveLocalNotes,
            addPendingOperation]
        · intro hfalse
          rw [hca] at hfalse
          exact absurd hfalse (by simp)

/-- Claim C5, witness: at a concrete online authenticated state with a
rejecting update call, the save still returns with the local write first and
a pending update enqueued. -/
theorem claim_C5_witness :
    (saveNote { userEnv with updateNoteOutcome := .errOther } emptySt
        (sampleNote "a" "T" 5)).2.head? =
      some (.storeWrite ("notes_" ++
        ({ userEnv with updateNoteOutcome := .errOther } : SyncEnv).userId)) ∧
    (sampleNote "a" "T" 5) ∈
      getLocalNotes (saveNote { userEnv with updateNoteOutcome := .errOther } emptySt
        (sampleNote "a" "T" 5)).1
        ({ userEnv with updateNoteOutcome := .errOther } : SyncEnv).userId :=
  ⟨(claim_C5_saveNote { userEnv with updateNoteOutcome := .errOther } emptySt
      (sampleNote "a" "T" 5)).1,
   (claim_C5_saveNote { userEnv with updateNoteOutcome := .errOther } emptySt
      (sampleNote "a" "T" 5)).2.1⟩

/-! Claim C6: guest mode is local-only. -/

theorem saveNote_guest (env : SyncEnv) (st : St) (n : Note) (h : env.user = none) :
    saveNote env st n =
      ({ st with store := (mapSet st.store "notes_guest"
          (.notesV (upsertNote (getLocalNotes st "guest") n))) },
       [.storeWrite "notes_guest"]) := by
  simp [saveNote, h, SyncEnv.userId, updateLocalNote, saveLocalNotes]

theorem deleteNote_guest (env : SyncEnv) (st : St) (i : String) (h : env.user = none) :
    deleteNote env st i =
      ({ st with store := (mapSet st.store "notes_guest"
          (.notesV ((getLocalNotes st "guest").filter (fun n => decide (n.id ≠ i))))) },
       [.storeWrite "notes_guest"]) := by
  simp [deleteNote, h, SyncEnv.userId, removeLocalNote, saveLocalNotes]

theorem saveChatThread_guest (env : SyncEnv) (st : St) (t : ChatThread)
    (h : env.user = none) :
    saveChatThread env st t =
      ({ st with store := (mapSet st.store "chatThreads_guest"
          (.threadsV (if (getLocalChatThreads st "guest").any
              (fun x => decide (x.id = t.id)) then
            setFirstThreadById t (getLocalChatThreads st "guest")
          else t :: getLocalChatThreads st "guest"))) },
       [.storeWrite "chatThreads_guest"]) := by
  simp [saveChatThread, h, updateLocalChatThread, saveLocalChatThreads]

theorem syncAll_guest (env : SyncEnv) (st : St) (h : env.user = none) :
    syncAll env st = (false, st, []) := by
  by_cases hs : st.isSyncing = true <;> simp [syncAll, h, hs]

theorem runAction_guest (env : SyncEnv) (st : St) (a : UserAction)
    (h : env.user = none) :
    (∀ e ∈ (runAction env st a).2.1,
       e = Effect.storeWrite "notes_guest" ∨ e = Effect.storeWrite "chatThreads_guest") ∧
    (runAction env st a).1.pendingOperations = st.pendingOperations ∧
    (runAction env st a).1.pendingChanges = st.pendingChanges ∧
    (runAction env st a).1.isSyncing = st.isSyncing ∧
    (∀ b ∈ (runAction env st a).2.2.toList, b = false) ∧
    (∀ k, k ≠ "notes_guest" → k ≠ "chatThreads_guest" →
       mapGet (runAction env st a).1.store k = mapGet st.store k) := by
  cases a with
  | saveN n =>
    refine ⟨?_, ?_, ?_, ?_, ?_, ?_⟩ <;>
      simp [runAction, saveNote_guest env st n h, mapGet_mapSet]
    intro k hk1 _
    simp [mapGet_mapSet, hk1]
  | deleteN i =>
    refine ⟨?_, ?_, ?_, ?_, ?_, ?_⟩ <;>
      simp [runAction, deleteNote_guest env st i h, mapGet_mapSet]
    intro k hk1 _
    simp [mapGet_mapSet, hk1]
  | saveT t =>
    refine ⟨?_, ?_, ?_, ?_, ?_, ?_⟩ <;>
      simp [runAction, saveChatThread_guest env st t h, mapGet_mapSet]
    intro k _ hk2
    simp [mapGet_mapSet, hk2]
  | requestSync =>
    refine ⟨?_, ?_, ?_, ?_, ?_, ?_⟩ <;>
      simp [runAction, syncAll_guest env st h]

/-- Claim C6: with no authenticated user, any sequence of saves, deletes,
chat-thread saves and sync requests issues zero remote calls (every effect
is a local-storage write under a guest-scoped key), never enqueues a pending
operation, never enters the Syncing state (isSyncing is untouched and every
syncAll call returns false), and touches no storage key other than the two
guest-scoped ones. -/
theorem claim_C6_guest_local_only (env : SyncEnv) (st : St) (acts : List UserAction)
    (h : env.user = none) :
    (∀ e ∈ (runActions env st acts).2.1,
       e = Effect.storeWrite "notes_guest" ∨ e = Effect.storeWrite "chatThreads_guest") ∧
    (runActions env st acts).1.pendingOperations = st.pendingOperations ∧
    (runActions env st acts).1.pendingChanges = st.pendingChanges ∧
    (runActions env st acts).1.isSyncing = st.isSyncing ∧
    (∀ b ∈ (runActions env st acts).2.2, b = false) ∧
    (∀ k, k ≠ "notes_guest" → k ≠ "chatThreads_guest" →
       mapGet (runActions env st acts).1.store k = mapGet st.store k) := by
  induction acts generalizing st with
  | nil => simp [runActions]
  | cons a rest ih =>
    obtain ⟨he, hp, hc, hs, hb, hk⟩ := runAction_guest env st a h
    obtain ⟨ihe, ihp, ihc, ihs, ihb, ihk⟩ := ih (runAction env st a).1
    refine ⟨?_, ?_, ?_, ?_, ?_, ?_⟩
    · intro e hmem
      rw [runActions] at hmem
      rcases List.mem_append.1 hmem with hm | hm
      · exact he e hm
      · exact ihe e hm
    · rw [runActions]; rw [ihp, hp]
    · rw [runActions]; rw [ihc, hc]
    · rw [runActions]; rw [ihs, hs]
    · intro b hmem
      rw [runActions] at hmem
      rcases List.mem_append.1 hmem with hm | hm
      · exact hb b hm
      · exact ihb b hm
    · intro k hk1 hk2
      rw [runActions]
      rw [ihk k hk1 hk2, hk k hk1 hk2]

/-- Claim C6, witness: a guest saving five notes and requesting a sync sees
only guest-key writes, no queue growth, a rejected sync, and all five notes
persisted under the guest notes key. -/
theorem claim_C6_witness :
    ((runActions guestEnv emptySt
        [.saveN (sampleNote "a" "A" 1), .saveN (sampleNote "b" "B" 2),
         .saveN (sampleNote "c" "C" 3), .saveN (sampleNote "d" "D" 4),
         .saveN (sampleNote "e" "E" 5), .requestSync]).1.pendingOperations =
      emptySt.pendingOperations) ∧
    (∀ b ∈ (runActions guestEnv emptySt
        [.saveN (sampleNote "a" "A" 1), .saveN (sampleNote "b" "B" 2),
         .saveN (sampleNote "c" "C" 3), .saveN (sampleNote "d" "D" 4),
         .saveN (sampleNote "e" "E" 5), .requestSync]).2.2, b = false) ∧
    ((getLocalNotes (runActions guestEnv emptySt
        [.saveN (sampleNote "a" "A" 1), .saveN (sampleNote "b" "B" 2),
         .saveN (sampleNote "c" "C" 3), .saveN (sampleNote "d" "D" 4),
         .saveN (sampleNote "e" "E" 5), .requestSync]).1 "guest").map
      (fun n => n.id) = ["e", "d", "c", "b", "a"]) :=
  ⟨(claim_C6_guest_local_only guestEnv emptySt _ rfl).2.1,
   (claim_C6_guest_local_only guestEnv emptySt _ rfl).2.2.2.2.1,
   by decide⟩

/-! Lemmas about lookups, seeding and sorting, toward the merge claims. -/

theorem findByKey_eq_some {key : α → String} {i : String} {xs : List α} {x : α}
    (h : findByKey key i xs = some x) : x ∈ xs ∧ key x = i := by
  induction xs with
  | nil => cases h
  | cons y t ih =>
    by_cases hy : key y = i
    · rw [findByKey, if_pos hy] at h
      have hx := Option.some.inj h
      rw [← hx]
      exact ⟨List.mem_cons_self y t, hy⟩
    · rw [findByKey, if_neg hy] at h
      rcases ih h with ⟨h1, h2⟩
      exact ⟨List.mem_cons_of_mem y h1, h2⟩

theorem findByKey_eq_none {key : α → String} {i : String} {xs : List α}
    (h : ∀ x ∈ xs, key x ≠ i) : findByKey key i xs = none := by
  induction xs with
  | nil => rfl
  | cons y t ih =>
    rw [findByKey, if_neg (h y (List.mem_cons_self y t))]
    exact ih (fun x hx => h x (List.mem_cons_of_mem y hx))

theorem mapGet_seedMap_untouched (key : α → String) (xs : List α)
    (m : List (String × α)) (i : String) (h : ∀ x ∈ xs, key x ≠ i) :
    mapGet (seedMap key xs m) i = mapGet m i := by
  induction xs generalizing m with
  | nil => rfl
  | cons x t ih =>
    have hx := h x (List.mem_cons_self x t)
    calc mapGet (seedMap key t (mapSet m (key x) x)) i
        = mapGet (mapSet m (key x) x) i :=
          ih (mapSet m (key x) x) (fun y hy => h y (List.mem_cons_of_mem x hy))
      _ = mapGet m i := by
          rw [mapGet_mapSet, if_neg (fun hh => hx hh.symm)]

theorem mapGet_seedMap (key : α → String) (xs : List α) (m : List (String × α))
    (i : String) (hnd : (xs.map key).Nodup) :
    mapGet (seedMap key xs m) i =
      match findByKey key i xs with
      | some x => some x
      | none => mapGet m i := by
  induction xs generalizing m with
  | nil => rfl
  | cons x t ih =>
    rw [List.map_cons] at hnd
    rcases List.nodup_cons.1 hnd with ⟨hx, hnd2⟩
    by_cases hi : key x = i
    · rw [findByKey, if_pos hi]
      have huntouched : ∀ y ∈ t, key y ≠ i := by
        intro y hy hcy
        exact hx (hi ▸ hcy ▸ List.mem_map_of_mem key hy)
      calc mapGet (seedMap key t (mapSet m (key x) x)) i
          = mapGet (mapSet m (key x) x) i :=
            mapGet_seedMap_untouched key t _ i huntouched
        _ = some x := by rw [mapGet_mapSet, if_pos hi.symm]
    · rw [findByKey, if_neg hi]
      rw [show seedMap key (x :: t) m = seedMap key t (mapSet m (key x) x) from rfl,
        ih (mapSet m (key x) x) hnd2]
      rcases hfind : findByKey key i t with _ | y
      · simp only []
        rw [mapGet_mapSet, if_neg (fun hh => hi hh.symm)]
      · simp only []

theorem mapSet_wf (key : α → String) (m : List (String × α)) (v : α)
    (hm : ∀ p ∈ m, p.1 = key p.2) :
    ∀ p ∈ mapSet m (key v) v, p.1 = key p.2 := by
  induction m with
  | nil =>
    intro p hp
    rcases List.mem_singleton.1 hp with rfl
    rfl
  | cons q t ih =>
    intro p hp
    by_cases hq : q.1 = key v
    · rw [mapSet, if_pos hq] at hp
      rcases List.mem_cons.1 hp with hp1 | hp2
      · rw [hp1]
      · exact hm p (List.mem_cons_of_mem q hp2)
    · rw [mapSet, if_neg hq] at hp
      rcases List.mem_cons.1 hp with hp1 | hp2
      · rw [hp1]
        exact hm q (List.mem_cons_self q t)
      · exact ih (fun r hr => hm r (List.mem_cons_of_mem q hr)) p hp2

theorem keys_mapSet (m : List (String × α)) (k : String) (v : α) :
    (mapSet m k v).map (fun p => p.1) =
      if k ∈ m.map (fun p => p.1) then m.map (fun p => p.1)
      else m.map (fun p => p.1) ++ [k] := by
  induction m with
  | nil => simp [mapSet]
  | cons q t ih =>
    by_cases hq : q.1 = k
    · rw [mapSet, if_pos hq]
      have hk : k ∈ (q :: t).map (fun p => p.1) := by
        rw [List.map_cons, List.mem_cons]
        exact Or.inl hq.symm
      rw [if_pos hk]
      simp [hq]
    · rw [mapSet, if_neg hq]
      by_cases hk : k ∈ t.map (fun p => p.1)
      · have hk2 : k ∈ (q :: t).map (fun p => p.1) := by
          rw [List.map_cons, List.mem_cons]
          exact Or.inr hk
        rw [if_pos hk2]
        simp only [List.map_cons]
        rw [ih, if_pos hk]
      · have hk2 : k ∉ (q :: t).map (fun p => p.1) := by
          rw [List.map_cons, List.mem_cons]
          rintro (hh | hh)
          · exact hq hh.symm
          · exact hk hh
        rw [if_neg hk2]
        simp only [List.map_cons, List.cons_append]
        rw [ih, if_neg hk]

theorem mapSet_nodupKeys (m : List (String × α)) (k : String) (v : α)
    (h : (mapKeys m).Nodup) : (mapKeys (mapSet m k v)).Nodup := by
  simp only [mapKeys] at h ⊢
  rw [keys_mapSet]
  by_cases hk : k ∈ m.map (fun p => p.1)
  · rw [if_pos hk]; exact h
  · rw [if_neg hk]
    simp [List.nodup_append, h, hk]

theorem seedMap_wf (key : α → String) (xs : List α) (m : List (String × α))
    (hm : ∀ p ∈ m, p.1 = key p.2) :
    ∀ p ∈ seedMap key xs m, p.1 = key p.2 := by
  induction xs generalizing m with
  | nil => exact hm
  | cons x t ih => exact ih (mapSet m (key x) x) (mapSet_wf key m x hm)

theorem seedMap_nodupKeys (key : α → String) (xs : List α) (m : List (String × α))
    (h : (mapKeys m).Nodup) : (mapKeys (seedMap key xs m)).Nodup := by
  induction xs generalizing m with
  | nil => exact h
  | cons x t ih => exact ih (mapSet m (key x) x) (mapSet_nodupKeys m (key x) x h)

theorem mapGet_of_mem {m : List (String × α)} (hnd : (mapKeys m).Nodup)
    {k : String} {v : α} (h : (k, v) ∈ m) : mapGet m k = some v := by
  induction m with
  | nil => cases h
  | cons q t ih =>
    rw [show mapKeys (q :: t) = q.1 :: mapKeys t from rfl] at hnd
    rcases List.nodup_cons.1 hnd with ⟨hq, hnd2⟩
    rcases List.mem_cons.1 h with rfl | h2
    · rw [mapGet, if_pos rfl]
    · have hk : q.1 ≠ k := by
        intro hh
        apply hq
        rw [hh]
        exact List.mem_map_of_mem (fun p => p.1) h2
      rw [mapGet, if_neg hk]
      exact ih hnd2 h2

theorem mem_of_mapGet {m : List (String × α)} {k : String} {v : α}
    (h : mapGet m k = some v) : (k, v) ∈ m := by
  induction m with
  | nil => cases h
  | cons q t ih =>
    by_cases hq : q.1 = k
    · rw [mapGet, if_pos hq] at h
      have hv : q.2 = v := Option.some.inj h
      rcases q with ⟨q1, q2⟩
      simp only at hq hv
      subst hq
      subst hv
      exact List.mem_cons_self _ t
    · rw [mapGet, if_neg hq] at h
      exact List.mem_cons_of_mem q (ih h)

theorem mem_mapValues_iff (key : α → String) (m : List (String × α))
    (hw : ∀ p ∈ m, p.1 = key p.2) (hnd : (mapKeys m).Nodup) (v : α) :
    v ∈ mapValues m ↔ mapGet m (key v) = some v := by
  constructor
  · intro hv
    rcases List.mem_map.1 hv with ⟨p, hp, hpv⟩
    have hk : p.1 = key v := by rw [hw p hp, hpv]
    have : (key v, v) ∈ m := by
      rw [← hk, ← hpv]
      exact hp
    exact mapGet_of_mem hnd this
  · intro hg
    exact List.mem_map.2 ⟨(key v, v), mem_of_mapGet hg, rfl⟩

theorem mem_insertSorted (le : α → α → Bool) (a b : α) (l : List α) :
    b ∈ insertSorted le a l ↔ b = a ∨ b ∈ l := by
  induction l with
  | nil => simp [insertSorted]
  | cons c t ih =>
    by_cases hle : le a c = true
    · simp [insertSorted, hle]
    · simp only [insertSorted, hle, if_false, Bool.false_eq_true, List.mem_cons, ih]
      tauto

theorem mem_sortBy (le : α → α → Bool) (l : List α) (a : α) :
    a ∈ sortBy le l ↔ a ∈ l := by
  induction l with
  | nil => simp [sortBy]
  | cons c t ih => simp [sortBy, mem_insertSorted, ih]

/-! Lemmas about the note-merge fold. -/

theorem mergeNoteStep_fst (m : List (String × Note)) (w w2 : List Note) (c : Note) :
    (mergeNoteStep (m, w) c).1 = (mergeNoteStep (m, w2) c).1 := by
  rw [mergeNoteStep, mergeNoteStep]
  rcases mapGet m c.id with _ | l
  · rfl
  · by_cases h1 : c.updatedAt > l.updatedAt <;>
      by_cases h2 : l.updatedAt > c.updatedAt <;> simp [h1, h2]

theorem mergeNoteStep_decomp (m : List (String × Note)) (w : List Note) (c : Note) :
    mergeNoteStep (m, w) c =
      ((mergeNoteStep (m, []) c).1, w ++ (mergeNoteStep (m, []) c).2) := by
  rw [mergeNoteStep, mergeNoteStep]
  rcases mapGet m c.id with _ | l
  · simp
  · by_cases h1 : c.updatedAt > l.updatedAt
    · simp [h1]
    · by_cases h2 : l.updatedAt > c.updatedAt <;> simp [h1, h2]

theorem mergeFold_decomp (cs : List Note) (m : List (String × Note)) (w : List Note) :
    cs.foldl mergeNoteStep (m, w) =
      ((cs.foldl mergeNoteStep (m, [])).1, w ++ (cs.foldl mergeNoteStep (m, [])).2) := by
  induction cs generalizing m w with
  | nil => simp
  | cons c cs ih =>
    rw [List.foldl_cons, List.foldl_cons,
      mergeNoteStep_decomp m w c, mergeNoteStep_decomp m [] c]
    simp only [List.nil_append]
    rw [ih (mergeNoteStep (m, []) c).1 (w ++ (mergeNoteStep (m, []) c).2),
      ih (mergeNoteStep (m, []) c).1 (mergeNoteStep (m, []) c).2]
    simp [List.append_assoc]

theorem mergeFold_fst_untouched (cs : List Note) (m : List (String × Note))
    (w : List Note) (i : String) (h : ∀ c ∈ cs, c.id ≠ i) :
    mapGet (cs.foldl mergeNoteStep (m, w)).1 i = mapGet m i := by
  induction cs generalizing m w with
  | nil => rfl
  | cons c cs ih =>
    rw [List.foldl_cons]
    have hc := h c (List.mem_cons_self c cs)
    have hrest : ∀ x ∈ cs, x.id ≠ i := fun x hx => h x (List.mem_cons_of_mem c hx)
    have hm : ∀ w0, mapGet (mergeNoteStep (m, w0) c).1 i = mapGet m i := by
      intro w0
      rw [mergeNoteStep]
      rcases mapGet m c.id with _ | l
      · simp only []
        rw [mapGet_mapSet, if_neg (fun hh => hc hh.symm)]
      · by_cases h1 : c.updatedAt > l.updatedAt
        · simp only [h1, if_true]
          rw [mapGet_mapSet, if_neg (fun hh => hc hh.symm)]
        · by_cases h2 : l.updatedAt > c.updatedAt <;> simp [h1, h2]
    rcases hstep : mergeNoteStep (m, w) c with ⟨m2, w2⟩
    have hm2 : mapGet m2 i = mapGet m i := by
      have hx := hm w
      rw [hstep] at hx
      exact hx
    rw [ih m2 w2 hrest, hm2]

theorem mergeFold_lookup (cs : List Note) (m : List (String × Note)) (w : List Note)
    (i : String) (hnd : (cs.map (fun n => n.id)).Nodup) :
    mapGet (cs.foldl mergeNoteStep (m, w)).1 i =
      match findByKey (fun n => n.id) i cs with
      | none => mapGet m i
      | some c =>
        match mapGet m i with
        | none => some c
        | some l => if c.updatedAt > l.updatedAt then some c else some l := by
  induction cs generalizing m w with
  | nil => rfl
  | cons c cs ih =>
    rw [List.map_cons] at hnd
    rcases List.nodup_cons.1 hnd with ⟨hx, hnd2⟩
    rw [List.foldl_cons]
    by_cases hi : c.id = i
    · subst hi
      rw [findByKey, if_pos rfl]
      have hrest : ∀ y ∈ cs, y.id ≠ c.id := by
        intro y hy hcy
        exact hx (hcy ▸ List.mem_map_of_mem (fun n => n.id) hy)
      have huntouched := mergeFold_fst_untouched cs (mergeNoteStep (m, w) c).1
        (mergeNoteStep (m, w) c).2 c.id hrest
      rw [show ((mergeNoteStep (m, w) c).1, (mergeNoteStep (m, w) c).2) =
        mergeNoteStep (m, w) c from rfl] at huntouched
      rw [huntouched, mergeNoteStep]
      rcases hg : mapGet m c.id with _ | l
      · simp only []
        rw [mapGet_mapSet, if_pos rfl]
      · by_cases h1 : c.updatedAt > l.updatedAt
        · simp only [h1, if_true]
          rw [mapGet_mapSet, if_pos rfl]
        · by_cases h2 : l.updatedAt > c.updatedAt <;> simp [h1, h2, hg]
    · rw [findByKey, if_neg hi]
      have hfold := ih (mergeNoteStep (m, w) c).1 (mergeNoteStep (m, w) c).2 hnd2
      rw [show ((mergeNoteStep (m, w) c).1, (mergeNoteStep (m, w) c).2) =
        mergeNoteStep (m, w) c from rfl] at hfold
      rw [hfold]
      have hmi : mapGet (mergeNoteStep (m, w) c).1 i = mapGet m i := by
        rw [mergeNoteStep]
        rcases mapGet m c.id with _ | l
        · simp only []
          rw [mapGet_mapSet, if_neg (fun hh => hi hh.symm)]
        · by_cases h1 : c.updatedAt > l.updatedAt
          · simp only [h1, if_true]
            rw [mapGet_mapSet, if_neg (fun hh => hi hh.symm)]
          · by_cases h2 : l.updatedAt > c.updatedAt <;> simp [h1, h2]
      rw [hmi]

theorem mergeFold_winners (cs : List Note) (m : List (String × Note)) (w : List Note)
    (hnd : (cs.map (fun n => n.id)).Nodup) :
    (cs.foldl mergeNoteStep (m, w)).2 =
      w ++ cs.filterMap (fun c =>
        match mapGet m c.id with
        | none => none
        | some l =>
          if c.updatedAt > l.updatedAt then none
          else if l.updatedAt > c.updatedAt then some l else none) := by
  induction cs generalizing m w with
  | nil => simp
  | cons c cs ih =>
    rw [List.map_cons] at hnd
    rcases List.nodup_cons.1 hnd with ⟨hx, hnd2⟩
    rw [List.foldl_cons]
    have hcongr : ∀ y ∈ cs, mapGet (mergeNoteStep (m, w) c).1 y.id = mapGet m y.id := by
      intro y hy
      have hne : c.id ≠ y.id := by
        intro hh
        exact hx (hh ▸ List.mem_map_of_mem (fun n => n.id) hy)
      rw [mergeNoteStep]
      rcases mapGet m c.id with _ | l
      · simp only []
        rw [mapGet_mapSet, if_neg (fun hh => hne hh.symm)]
      · by_cases h1 : c.updatedAt > l.updatedAt
        · simp only [h1, if_true]
          rw [mapGet_mapSet, if_neg (fun hh => hne hh.symm)]
        · by_cases h2 : l.updatedAt > c.updatedAt <;> simp [h1, h2]
    have hfold := ih (mergeNoteStep (m, w) c).1 (mergeNoteStep (m, w) c).2 hnd2
    rw [show ((mergeNoteStep (m, w) c).1, (mergeNoteStep (m, w) c).2) =
      mergeNoteStep (m, w) c from rfl] at hfold
    rw [hfold]
    have hcongr2 : cs.filterMap (fun y =>
        match mapGet (mergeNoteStep (m, w) c).1 y.id with
        | none => none
        | some l =>
          if y.updatedAt > l.updatedAt then none
          else if l.updatedAt > y.updatedAt then some l else none) =
      cs.filterMap (fun y =>
        match mapGet m y.id with
        | none => none
        | some l =>
          if y.updatedAt > l.updatedAt then none
          else if l.updatedAt > y.updatedAt then some l else none) :=
      List.filterMap_congr (fun y hy => by rw [hcongr y hy])
    rw [hcongr2, mergeNoteStep]
    rcases hg : mapGet m c.id with _ | l
    · simp [List.filterMap_cons, hg]
    · by_cases h1 : c.updatedAt > l.updatedAt
      · simp [List.filterMap_cons, hg, h1]
      · by_cases h2 : l.updatedAt > c.updatedAt <;>
          simp [List.filterMap_cons, hg, h1, h2]

theorem mergeFold_wf (cs : List Note) (m : List (String × Note)) (w : List Note)
    (hm : ∀ p ∈ m, p.1 = p.2.id) :
    ∀ p ∈ (cs.foldl mergeNoteStep (m, w)).1, p.1 = p.2.id := by
  induction cs generalizing m w with
  | nil => exact hm
  | cons c cs ih =>
    rw [List.foldl_cons]
    have hstep : ∀ p ∈ (mergeNoteStep (m, w) c).1, p.1 = p.2.id := by
      rw [mergeNoteStep]
      rcases mapGet m c.id with _ | l
      · simp only []
        exact mapSet_wf (fun n => n.id) m c hm
      · by_cases h1 : c.updatedAt > l.updatedAt
        · simp only [h1, if_true]
          exact mapSet_wf (fun n => n.id) m c hm
        · by_cases h2 : l.updatedAt > c.updatedAt <;> simp only [h1, h2, if_true,
            if_false, Bool.false_eq_true] <;> exact hm
    have := ih (mergeNoteStep (m, w) c).1 (mergeNoteStep (m, w) c).2 hstep
    rw [show ((mergeNoteStep (m, w) c).1, (mergeNoteStep (m, w) c).2) =
      mergeNoteStep (m, w) c from rfl] at this
    exact this

theorem mergeFold_nodupKeys (cs : List Note) (m : List (String × Note)) (w : List Note)
    (hm : (mapKeys m).Nodup) :
    (mapKeys (cs.foldl mergeNoteStep (m, w)).1).Nodup := by
  induction cs generalizing m w with
  | nil => exact hm
  | cons c cs ih =>
    rw [List.foldl_cons]
    have hstep : (mapKeys (mergeNoteStep (m, w) c).1).Nodup := by
      rw [mergeNoteStep]
      rcases mapGet m c.id with _ | l
      · simp only []
        exact mapSet_nodupKeys m c.id c hm
      · by_cases h1 : c.updatedAt > l.updatedAt
        · simp only [h1, if_true]
          exact mapSet_nodupKeys m c.id c hm
        · by_cases h2 : l.updatedAt > c.updatedAt <;> simp only [h1, h2, if_true,
            if_false, Bool.false_eq_true] <;> exact hm
    have := ih (mergeNoteStep (m, w) c).1 (mergeNoteStep (m, w) c).2 hstep
    rw [show ((mergeNoteStep (m, w) c).1, (mergeNoteStep (m, w) c).2) =
      mergeNoteStep (m, w) c from rfl] at this
    exact this

theorem mergeNotes_lookup (L R : List Note)
    (hL : (L.map (fun n => n.id)).Nodup) (hR : (R.map (fun n => n.id)).Nodup)
    (i : String) :
    mapGet (R.foldl mergeNoteStep (seedMap (fun n => n.id) L [], [])).1 i =
      mergedNoteLookup L R i := by
  rw [mergeFold_lookup R (seedMap (fun n => n.id) L []) [] i hR]
  rw [mapGet_seedMap (fun n => n.id) L [] i hL]
  rw [show mapGet ([] : List (String × Note)) i = none from rfl]
  rcases hfL : findByKey (fun n => n.id) i L with _ | l <;>
    rcases hfR : findByKey (fun n => n.id) i R with _ | r <;>
    simp [mergedNoteLookup, hfL, hfR]

theorem mem_mergeNotes_result (L R : List Note)
    (hL : (L.map (fun n => n.id)).Nodup) (hR : (R.map (fun n => n.id)).Nodup)
    (n : Note) :
    n ∈ (mergeNotes L R).1 ↔ mergedNoteLookup L R n.id = some n := by
  show n ∈ sortBy (fun a b => b.updatedAt ≤ a.updatedAt)
    (mapValues (R.foldl mergeNoteStep (seedMap (fun x => x.id) L [], [])).1) ↔ _
  rw [mem_sortBy]
  have hwf : ∀ p ∈ (R.foldl mergeNoteStep (seedMap (fun x => x.id) L [], [])).1,
      p.1 = p.2.id :=
    mergeFold_wf R _ [] (seedMap_wf (fun x => x.id) L [] (fun p hp => absurd hp
      (List.not_mem_nil p)))
  have hnd : (mapKeys (R.foldl mergeNoteStep
      (seedMap (fun x => x.id) L [], [])).1).Nodup :=
    mergeFold_nodupKeys R _ [] (seedMap_nodupKeys (fun x => x.id) L [] List.nodup_nil)
  rw [mem_mapValues_iff (fun x => x.id) _ hwf hnd n]
  rw [mergeNotes_lookup L R hL hR n.id]

theorem mergeNotes_winners_eq (L R : List Note)
    (hL : (L.map (fun n => n.id)).Nodup) (hR : (R.map (fun n => n.id)).Nodup) :
    (mergeNotes L R).2 = noteWinners L R := by
  show (R.foldl mergeNoteStep (seedMap (fun n => n.id) L [], [])).2 = _
  rw [mergeFold_winners R (seedMap (fun n => n.id) L []) [] hR, List.nil_append]
  unfold noteWinners
  apply List.filterMap_congr
  intro c _
  rw [mapGet_seedMap (fun n => n.id) L [] c.id hL]
  rw [show mapGet ([] : List (String × Note)) c.id = none from rfl]
  rcases hf : findByKey (fun n => n.id) c.id L with _ | l <;> simp [hf]

/-! Lemmas about the chat-thread and label merges. -/

theorem threadFold_untouched (cs : List ChatThread) (m : List (String × ChatThread))
    (i : String) (h : ∀ c ∈ cs, c.id ≠ i) :
    mapGet (cs.foldl mergeThreadStep m) i = mapGet m i := by
  induction cs generalizing m with
  | nil => rfl
  | cons c cs ih =>
    rw [List.foldl_cons]
    have hc := h c (List.mem_cons_self c cs)
    have hrest : ∀ x ∈ cs, x.id ≠ i := fun x hx => h x (List.mem_cons_of_mem c hx)
    have hm : mapGet (mergeThreadStep m c) i = mapGet m i := by
      rw [mergeThreadStep]
      rcases mapGet m c.id with _ | l
      · simp only []
        rw [mapGet_mapSet, if_neg (fun hh => hc hh.symm)]
      · by_cases h1 : c.updatedAt > l.updatedAt
        · simp only [h1, if_true]
          rw [mapGet_mapSet, if_neg (fun hh => hc hh.symm)]
        · simp [h1]
    rw [ih (mergeThreadStep m c) hrest, hm]

theorem threadFold_lookup (cs : List ChatThread) (m : List (String × ChatThread))
    (i : String) (hnd : (cs.map (fun t => t.id)).Nodup) :
    mapGet (cs.foldl mergeThreadStep m) i =
      match findByKey (fun t => t.id) i cs with
      | none => mapGet m i
      | some c =>
        match mapGet m i with
        | none => some c
        | some l => if c.updatedAt > l.updatedAt then some c else some l := by
  induction cs generalizing m with
  | nil => rfl
  | cons c cs ih =>
    rw [List.map_cons] at hnd
    rcases List.nodup_cons.1 hnd with ⟨hx, hnd2⟩
    rw [List.foldl_cons]
    by_cases hi : c.id = i
    · subst hi
      rw [findByKey, if_pos rfl]
      have hrest : ∀ y ∈ cs, y.id ≠ c.id := by
        intro y hy hcy
        exact hx (hcy ▸ List.mem_map_of_mem (fun t => t.id) hy)
      rw [threadFold_untouched cs (mergeThreadStep m c) c.id hrest, mergeThreadStep]
      rcases hg : mapGet m c.id with _ | l
      · simp only []
        rw [mapGet_mapSet, if_pos rfl]
      · by_cases h1 : c.updatedAt > l.updatedAt
        · simp only [h1, if_true]
          rw [mapGet_mapSet, if_pos rfl]
        · simp [h1, hg]
    · rw [findByKey, if_neg hi]
      rw [ih (mergeThreadStep m c) hnd2]
      have hmi : mapGet (mergeThreadStep m c) i = mapGet m i := by
        rw [mergeThreadStep]
        rcases mapGet m c.id with _ | l
        · simp only []
          rw [mapGet_mapSet, if_neg (fun hh => hi hh.symm)]
        · by_cases h1 : c.updatedAt > l.updatedAt
          · simp only [h1, if_true]
            rw [mapGet_mapSet, if_neg (fun hh => hi hh.symm)]
          · simp [h1]
      rw [hmi]

theorem threadFold_wf (cs : List ChatThread) (m : List (String × ChatThread))
    (hm : ∀ p ∈ m, p.1 = p.2.id) :
    ∀ p ∈ cs.foldl mergeThreadStep m, p.1 = p.2.id := by
  induction cs generalizing m with
  | nil => exact hm
  | cons c cs ih =>
    rw [List.foldl_cons]
    refine ih (mergeThreadStep m c) ?_
    rw [mergeThreadStep]
    rcases mapGet m c.id with _ | l
    · simp only []
      exact mapSet_wf (fun t => t.id) m c hm
    · by_cases h1 : c.updatedAt > l.updatedAt
      · simp only [h1, if_true]
        exact mapSet_wf (fun t => t.id) m c hm
      · simp only [h1, if_false, Bool.false_eq_true]
        exact hm

theorem threadFold_nodupKeys (cs : List ChatThread) (m : List (String × ChatThread))
    (hm : (mapKeys m).Nodup) :
    (mapKeys (cs.foldl mergeThreadStep m)).Nodup := by
  induction cs generalizing m with
  | nil => exact hm
  | cons c cs ih =>
    rw [List.foldl_cons]
    refine ih (mergeThreadStep m c) ?_
    rw [mergeThreadStep]
    rcases mapGet m c.id with _ | l
    · simp only []
      exact mapSet_nodupKeys m c.id c hm
    · by_cases h1 : c.updatedAt > l.updatedAt
      · simp only [h1, if_true]
        exact mapSet_nodupKeys m c.id c hm
      · simp only [h1, if_false, Bool.false_eq_true]
        exact hm

theorem mem_mergeChatThreads (L R : List ChatThread)
    (hL : (L.map (fun t => t.id)).Nodup) (hR : (R.map (fun t => t.id)).Nodup)
    (t : ChatThread) :
    t ∈ mergeChatThreads L R ↔ mergedThreadLookup L R t.id = some t := by
  show t ∈ sortBy (fun a b => b.updatedAt ≤ a.updatedAt)
    (mapValues (R.foldl mergeThreadStep (seedMap (fun x => x.id) L []))) ↔ _
  rw [mem_sortBy]
  have hwf : ∀ p ∈ R.foldl mergeThreadStep (seedMap (fun x => x.id) L []), p.1 = p.2.id :=
    threadFold_wf R _ (seedMap_wf (fun x => x.id) L []
      (fun p hp => absurd hp (List.not_mem_nil p)))
  have hnd : (mapKeys (R.foldl mergeThreadStep (seedMap (fun x => x.id) L []))).Nodup :=
    threadFold_nodupKeys R _ (seedMap_nodupKeys (fun x => x.id) L [] List.nodup_nil)
  rw [mem_mapValues_iff (fun x => x.id) _ hwf hnd t]
  rw [threadFold_lookup R (seedMap (fun x => x.id) L []) t.id hR]
  rw [mapGet_seedMap (fun x => x.id) L [] t.id hL]
  rw [show mapGet ([] : List (String × ChatThread)) t.id = none from rfl]
  rcases hfL : findByKey (fun x => x.id) t.id L with _ | l <;>
    rcases hfR : findByKey (fun x => x.id) t.id R with _ | r <;>
    simp [mergedThreadLookup, hfL, hfR]

theorem mem_mergeLabels (L R : List Label)
    (hL : (L.map (fun l => l.id)).Nodup) (hR : (R.map (fun l => l.id)).Nodup)
    (lb : Label) :
    lb ∈ mergeLabels L R ↔ mergedLabelLookup L R lb.id = some lb := by
  show lb ∈ sortBy (fun a b => a.name ≤ b.name)
    (mapValues (seedMap (fun x => x.id) R (seedMap (fun x => x.id) L []))) ↔ _
  rw [mem_sortBy]
  have hwf : ∀ p ∈ seedMap (fun x => x.id) R (seedMap (fun x => x.id) L []),
      p.1 = p.2.id :=
    seedMap_wf (fun x => x.id) R _ (seedMap_wf (fun x => x.id) L []
      (fun p hp => absurd hp (List.not_mem_nil p)))
  have hnd : (mapKeys (seedMap (fun x => x.id) R (seedMap (fun x => x.id) L []))).Nodup :=
    seedMap_nodupKeys (fun x => x.id) R _
      (seedMap_nodupKeys (fun x => x.id) L [] List.nodup_nil)
  rw [mem_mapValues_iff (fun x => x.id) _ hwf hnd lb]
  rw [mapGet_seedMap (fun x => x.id) R _ lb.id hR]
  rw [mapGet_seedMap (fun x => x.id) L [] lb.id hL]
  rw [show mapGet ([] : List (String × Label)) lb.id = none from rfl]
  rcases hfL : findByKey (fun x => x.id) lb.id L with _ | l <;>
    rcases hfR : findByKey (fun x => x.id) lb.id R with _ | r <;>
    simp [mergedLabelLookup, hfL, hfR]

/-! The enqueue side effect of the note merge inside syncNotes. -/

theorem addPendingFold_pending (ws : List Note) (now : Millis) (st : St)
    (e0 : List Effect) :
    (ws.foldl (fun acc w =>
      let r := addPendingOperation now .update .notes (.note w) acc.1
      (r.1, acc.2 ++ r.2)) (st, e0)).1.pendingOperations =
      st.pendingOperations ++
        ws.map (fun w => mkPendingOp now .update .notes (.note w)) := by
  induction ws generalizing st e0 with
  | nil => simp
  | cons w ws ih =>
    rw [List.foldl_cons]
    have hstep : (addPendingOperation now .update .notes (.note w) st).1.pendingOperations =
        st.pendingOperations ++ [mkPendingOp now .update .notes (.note w)] := rfl
    rw [ih (addPendingOperation now .update .notes (.note w) st).1
      (e0 ++ (addPendingOperation now .update .notes (.note w) st).2), hstep]
    simp

theorem syncNotes_ok_pending (env : SyncEnv) (st : St) (uid : String) (R2 : List Note)
    (hok : env.remoteNotes = .ok R2) :
    ∃ out, syncNotes env st uid = .ok out ∧
      out.1.pendingOperations = st.pendingOperations ++
        ((mergeNotes (getLocalNotes st uid) R2).2).map
          (fun w => mkPendingOp env.now .update .notes (.note w)) := by
  refine ⟨_, by rw [syncNotes]; rw [hok], ?_⟩
  show (saveLocalNotes _ uid _).1.pendingOperations = _
  rw [show ∀ s ns, (saveLocalNotes s uid ns).1.pendingOperations = s.pendingOperations
    from fun s ns => rfl]
  exact addPendingFold_pending (mergeNotes (getLocalNotes st uid) R2).2 env.now st []

/-! Claims C2 and C7. -/

/-- Claim C2, counterexample: on a timestamp tie the code keeps the local
note, not the remote one: merging a local and a remote note with the same id
and equal updatedAt but different titles yields the local note and the
remote value is absent, refuting the claimed deterministic tie-break toward
the remote value. -/
theorem claim_C2_cex :
    sampleNote "a" "remote" 5 ∉
      (mergeNotes [sampleNote "a" "local" 5] [sampleNote "a" "remote" 5]).1 ∧
    (mergeNotes [sampleNote "a" "local" 5] [sampleNote "a" "remote" 5]).1 =
      [sampleNote "a" "local" 5] ∧
    (mergeNotes [sampleNote "a" "local" 5] [sampleNote "a" "remote" 5]).2 = [] := by
  decide

/-- Claim C2, amended: for notes and chat threads the merge is last write
wins with the tie (equal updatedAt) kept on the local side: a remote entity
is in the result iff it is absent locally or strictly newer.  Local winners
are computed and re-enqueued as pending note updates only for the notes
collection (one pending update per strictly newer local note, in remote
iteration order); the chat-thread merge keeps strictly newer local threads
without re-enqueuing anything, and the label merge compares no timestamps at
all: every remote label unconditionally replaces the local label with the
same id and no local winners are recorded. -/
theorem claim_C2_lww_merge
    (L R : List Note) (TL TR : List ChatThread) (LL LR : List Label)
    (hL : (L.map (fun n => n.id)).Nodup) (hR : (R.map (fun n => n.id)).Nodup)
    (hTL : (TL.map (fun t => t.id)).Nodup) (hTR : (TR.map (fun t => t.id)).Nodup)
    (hLL : (LL.map (fun l => l.id)).Nodup) (hLR : (LR.map (fun l => l.id)).Nodup) :
    (∀ n, n ∈ (mergeNotes L R).1 ↔ mergedNoteLookup L R n.id = some n) ∧
    ((mergeNotes L R).2 = noteWinners L R) ∧
    (∀ (env : SyncEnv) (st : St) (uid : String) (R2 : List Note),
      env.remoteNotes = .ok R2 →
      ∃ out, syncNotes env st uid = .ok out ∧
        out.1.pendingOperations = st.pendingOperations ++
          ((mergeNotes (getLocalNotes st uid) R2).2).map
            (fun w => mkPendingOp env.now .update .notes (.note w))) ∧
    (∀ t, t ∈ mergeChatThreads TL TR ↔ mergedThreadLookup TL TR t.id = some t) ∧
    (∀ lb, lb ∈ mergeLabels LL LR ↔ mergedLabelLookup LL LR lb.id = some lb) :=
  ⟨mem_mergeNotes_result L R hL hR, mergeNotes_winners_eq L R hL hR,
   syncNotes_ok_pending, mem_mergeChatThreads TL TR hTL hTR,
   mem_mergeLabels LL LR hLL hLR⟩

/-- Claim C2, witness: a strictly newer local note is kept and appears as
the single local winner, at concrete inputs. -/
theorem claim_C2_witness :
    (mergeNotes [sampleNote "a" "local" 5] [sampleNote "a" "remote" 3]).2 =
      noteWinners [sampleNote "a" "local" 5] [sampleNote "a" "remote" 3] ∧
    noteWinners [sampleNote "a" "local" 5] [sampleNote "a" "remote" 3] =
      [sampleNote "a" "local" 5] :=
  ⟨(claim_C2_lww_merge [sampleNote "a" "local" 5] [sampleNote "a" "remote" 3]
      [] [] [] [] (by decide) (by decide) (by decide) (by decide) (by decide)
      (by decide)).2.1,
   by decide⟩

theorem mergedNoteLookup_comm (L R : List Note)
    (hstrict : ∀ l ∈ L, ∀ r ∈ R, l.id = r.id → l.updatedAt ≠ r.updatedAt)
    (i : String) :
    mergedNoteLookup L R i = mergedNoteLookup R L i := by
  unfold mergedNoteLookup
  rcases hfL : findByKey (fun n => n.id) i L with _ | l <;>
    rcases hfR : findByKey (fun n => n.id) i R with _ | r <;> simp [hfL, hfR]
  obtain ⟨hlm, hli⟩ := findByKey_eq_some hfL
  obtain ⟨hrm, hri⟩ := findByKey_eq_some hfR
  have hne := hstrict l hlm r hrm (by rw [hli, hri])
  rcases Nat.lt_trichotomy l.updatedAt r.updatedAt with h | h | h
  · rw [if_pos h, if_neg (fun hh => Nat.lt_asymm h hh)]
  · exact absurd h hne
  · rw [if_neg (fun hh => Nat.lt_asymm h hh), if_pos h]

/-- Claim C7, counterexample: the note merge is not free of side effects on
the pending-operation queue: one syncNotes cycle over a strictly newer local
note starts from an empty queue and ends with a pending note update for that
id enqueued during the merge, refuting the no-mutation part of the claim. -/
theorem claim_C7_cex :
    (syncNotes staleRemoteEnv newerLocalSt "u1").toOption.map
        (fun out => out.1.pendingOperations.map
          (fun o => (o.id, o.type, o.collection))) =
      some [("a", OpType.update, Collection.notes)] ∧
    newerLocalSt.pendingOperations = [] := by
  decide

/-- Claim C7, amended: the merged result is a deterministic function of the
two snapshots, and when all shared ids have strictly ordered timestamps the
result contents are the same regardless of which side supplied the newer
entity; however the merge does mutate the pending-operation queue: a
syncNotes cycle appends exactly one pending note update per strict local
winner, in remote iteration order. -/
theorem claim_C7_merge_purity (L R : List Note)
    (hL : (L.map (fun n => n.id)).Nodup) (hR : (R.map (fun n => n.id)).Nodup)
    (hstrict : ∀ l ∈ L, ∀ r ∈ R, l.id = r.id → l.updatedAt ≠ r.updatedAt) :
    (∀ n, n ∈ (mergeNotes L R).1 ↔ n ∈ (mergeNotes R L).1) ∧
    (∀ (env : SyncEnv) (st : St) (uid : String) (R2 : List Note),
      env.remoteNotes = .ok R2 →
      ∃ out, syncNotes env st uid = .ok out ∧
        out.1.pendingOperations = st.pendingOperations ++
          ((mergeNotes (getLocalNotes st uid) R2).2).map
            (fun w => mkPendingOp env.now .update .notes (.note w))) := by
  constructor
  · intro n
    rw [mem_mergeNotes_result L R hL hR n, mem_mergeNotes_result R L hR hL n,
      mergedNoteLookup_comm L R hstrict n.id]
  · exact syncNotes_ok_pending

/-- Claim C7, witness: side-symmetry of the result contents at concrete
strictly ordered snapshots. -/
theorem claim_C7_witness :
    sampleNote "a" "new" 9 ∈
      (mergeNotes [sampleNote "a" "new" 9]
        [sampleNote "a" "old" 3, sampleNote "b" "only" 1]).1 ↔
    sampleNote "a" "new" 9 ∈
      (mergeNotes [sampleNote "a" "old" 3, sampleNote "b" "only" 1]
        [sampleNote "a" "new" 9]).1 :=
  (claim_C7_merge_purity [sampleNote "a" "new" 9]
    [sampleNote "a" "old" 3, sampleNote "b" "only" 1]
    (by decide) (by decide) (by decide)).1 (sampleNote "a" "new" 9)

end KeepNotes
